import Mathlib

/-!
Verification of the StepUpLeaderboard scoring and analytics engine.

This file shallowly embeds the core of the repository:
the Monday-Sunday week resolver and ISO week computation from
src/components/dashboard/TaskBoard.tsx, the CSV row parser from the same
file, the point/rank recalculation and participant deletion from
src/lib/dataService.ts, the manual-entry daily distribution from
DataService.createLeaderboardEntry, and the all-time win-streak analytics
from DataService.getOverallAnalytics.

JavaScript machine integers are modelled as Int/Nat (the quantities in play
are small integers, far from any overflow), JavaScript numbers that hold
decimal data (distance) as Rat, and calendar dates as explicit
year/month/day records with proleptic Gregorian arithmetic, which matches
the local-time Date arithmetic the code performs on dates constructed at
local midnight.
-/

namespace StepUp

/-! ## Calendar dates

The code builds JavaScript Date values at local midnight
(for example `new Date(csvDates[0] + 'T00:00:00')`) and manipulates them
with getDay / setDate / getTime differences.  We model such a value by its
civil (year, month, day) triple and a day count. -/

structure Date where
  year : Nat
  month : Nat
  day : Nat
deriving DecidableEq

/-- Gregorian leap-year rule, as used by JavaScript Date. -/
def isLeap (y : Nat) : Bool := decide ((y % 4 = 0 ∧ y % 100 ≠ 0) ∨ y % 400 = 0)

def daysInMonth (y m : Nat) : Nat :=
  if m = 2 then (if isLeap y then 29 else 28)
  else if m = 4 ∨ m = 6 ∨ m = 9 ∨ m = 11 then 30
  else 31

def daysInYear (y : Nat) : Nat := if isLeap y then 366 else 365

/-- Total days in months 1..m of year y. -/
def cumDays (y : Nat) : Nat → Nat
  | 0 => 0
  | m + 1 => cumDays y m + daysInMonth y (m + 1)

/-- Ordinal day of the year, 1-based (Jan 1 is day 1). -/
def dayOfYear (d : Date) : Nat := cumDays d.year (d.month - 1) + d.day

/-- Total days in years 1..y of the proleptic Gregorian calendar,
in closed form so that it evaluates quickly. -/
def daysBeforeYear (y : Nat) : Nat := 365 * y + y / 4 - y / 100 + y / 400

/-- Linear day number of a date; 0001-01-01 is day 1. -/
def dayNumber (d : Date) : Nat := daysBeforeYear (d.year - 1) + dayOfYear d

def Date.Valid (d : Date) : Prop :=
  1 ≤ d.year ∧ 1 ≤ d.month ∧ d.month ≤ 12 ∧ 1 ≤ d.day ∧ d.day ≤ daysInMonth d.year d.month

instance (d : Date) : Decidable d.Valid := by
  unfold Date.Valid; infer_instance

/-- Successor calendar day, rolling over months and years exactly the way
JavaScript setDate normalizes an out-of-range day-of-month. -/
def nextDay (d : Date) : Date :=
  if d.day < daysInMonth d.year d.month then ⟨d.year, d.month, d.day + 1⟩
  else if d.month < 12 then ⟨d.year, d.month + 1, 1⟩
  else ⟨d.year + 1, 1, 1⟩

/-- Predecessor calendar day. -/
def prevDay (d : Date) : Date :=
  if 2 ≤ d.day then ⟨d.year, d.month, d.day - 1⟩
  else if 2 ≤ d.month then ⟨d.year, d.month - 1, daysInMonth d.year (d.month - 1)⟩
  else ⟨d.year - 1, 12, 31⟩

def addDays (d : Date) : Nat → Date
  | 0 => d
  | k + 1 => nextDay (addDays d k)

def subDays (d : Date) : Nat → Date
  | 0 => d
  | k + 1 => prevDay (subDays d k)

/-- Shift a date by a possibly negative number of days; this models the
JavaScript idiom `d.setDate(d.getDate() + delta)`. -/
def shiftDays (d : Date) (k : Int) : Date :=
  if 0 ≤ k then addDays d k.toNat else subDays d (-k).toNat

/-- Models JavaScript Date.prototype.getDay: 0 = Sunday, ..., 6 = Saturday. -/
def jsGetDay (d : Date) : Nat := dayNumber d % 7

/-! ## Week resolver (TaskBoard.tsx, saveParticipantsToDatabase) -/

/-- getMondayWeekBounds (TaskBoard.tsx lines 299-307): the Monday of the
date's week via `d.getDate() - day + (day === 0 ? -6 : 1)`, and that
Monday plus six days. -/
def getMondayWeekBounds (d : Date) : Date × Date :=
  let day := jsGetDay d
  let monday := shiftDays d ((if day = 0 then (-6 : Int) else 1) - day)
  (monday, addDays monday 6)

/-- The `d.getDay() || 7` idiom: ISO weekday with Monday = 1 .. Sunday = 7. -/
def isoWeekday (d : Date) : Nat := if jsGetDay d = 0 then 7 else jsGetDay d

/-- The Thursday-of-the-week shift `d.setDate(d.getDate() + 4 - dayNum)`
performed inside getWeekNumber. -/
def isoThursday (d : Date) : Date := shiftDays d (4 - (isoWeekday d : Int))

/-- getWeekNumber (TaskBoard.tsx lines 310-324): shift to the nearest
Thursday, then `Math.ceil((((d - yearStart) / 86400000) + 1) / 7)`, where
yearStart is January 1 of the shifted date's year.  The millisecond
difference of two local midnights divided by 86400000 is the whole-day
difference, modelled by dayNumber subtraction; Math.ceil on (x + 1) / 7 for
a day count x is (x + 1 + 6) / 7 in natural division. -/
def getWeekNumber (d : Date) : Nat :=
  let t := isoThursday d
  let yearStart : Date := ⟨t.year, 1, 1⟩
  (dayNumber t - dayNumber yearStart + 1 + 6) / 7

structure WeekInfo where
  weekStart : Date
  weekEnd : Date
  weekNumber : Nat
  year : Nat
deriving DecidableEq

/-- Week resolution in saveParticipantsToDatabase (TaskBoard.tsx lines
326-331): the anchor is `csvDates[0]`, the FIRST date column in header
order; week bounds and week number come from that anchor, and the recorded
year is `firstDate.getFullYear()`, the anchor's own year.  The caller has
already errored out when there are no date columns, so the default head is
never reached on real inputs. -/
def resolveWeek (csvDates : List Date) : WeekInfo :=
  let firstDate := csvDates.headD ⟨1970, 1, 1⟩
  let b := getMondayWeekBounds firstDate
  { weekStart := b.1, weekEnd := b.2, weekNumber := getWeekNumber firstDate, year := firstDate.year }

/-- Stated by the spec: the earliest date of the set (minimum by calendar
order).  Used to compare the code's anchor choice with the specified one. -/
def earliestDate (ds : List Date) : Date :=
  ds.foldl (fun a b => if dayNumber b < dayNumber a then b else a) (ds.headD ⟨1970, 1, 1⟩)

/-! ## CSV cell parsing (TaskBoard.tsx, handleUploadProcess)

The data rows have already been split on the detected separator and each
cell trimmed and stripped of quotes; a cell index beyond the row's length
reads as the empty string, which parses to NaN exactly as the undefined
cell does in JavaScript. -/

/-- Models JavaScript parseInt on a decimal string: skip leading
whitespace, optional sign, then a maximal run of digits; none (NaN) when
no digit follows.  Hexadecimal prefixes and exponents do not occur in step
data and are not modelled. -/
def jsParseInt (s : String) : Option Int :=
  let cs := s.toList.dropWhile (fun c => c.isWhitespace)
  let signed : Int × List Char :=
    match cs with
    | '-' :: t => (-1, t)
    | '+' :: t => (1, t)
    | _ => (1, cs)
  let ds := signed.2.takeWhile (fun c => c.isDigit)
  if ds.isEmpty then none
  else some (signed.1 * (ds.foldl (fun a c => a * 10 + (c.toNat - 48)) 0 : Nat))

/-- The `parseInt(v) || 0` idiom: NaN falls back to 0 (and a parsed 0 stays 0). -/
def jsParseIntOr0 (s : String) : Int := (jsParseInt s).getD 0

/-- Models JavaScript parseFloat on a decimal string: sign, integer digits,
optional fraction; NaN when no digit appears on either side of the point. -/
def jsParseFloat (s : String) : Option Rat :=
  let cs := s.toList.dropWhile (fun c => c.isWhitespace)
  let signed : Rat × List Char :=
    match cs with
    | '-' :: t => (-1, t)
    | '+' :: t => (1, t)
    | _ => (1, cs)
  let intDs := signed.2.takeWhile (fun c => c.isDigit)
  let rest := signed.2.dropWhile (fun c => c.isDigit)
  let fracDs : List Char :=
    match rest with
    | '.' :: t => t.takeWhile (fun c => c.isDigit)
    | _ => []
  if intDs.isEmpty ∧ fracDs.isEmpty then none
  else
    let intVal : Nat := intDs.foldl (fun a c => a * 10 + (c.toNat - 48)) 0
    let fracVal : Nat := fracDs.foldl (fun a c => a * 10 + (c.toNat - 48)) 0
    some (signed.1 * ((intVal : Rat) + (fracVal : Rat) / ((10 : Rat) ^ fracDs.length)))

/-- The `parseFloat(v) || 0` idiom. -/
def jsParseFloatOr0 (s : String) : Rat := (jsParseFloat s).getD 0

structure DailyDatum where
  date : String
  steps : Int
  distance : Rat
deriving DecidableEq

structure ParsedParticipant where
  name : String
  totalSteps : Int
  totalDistance : Rat
  dailyData : List DailyDatum
deriving DecidableEq

/-- Cell access `values[j]`: out-of-range reads behave like the empty cell. -/
def cellAt (values : List String) (j : Nat) : String := values.getD j ""

/-- One data row (TaskBoard.tsx lines 619-652).  The row is kept when
`values.length > nameIndex && values[nameIndex]` holds, that is when the
name cell exists and is non-empty; dateCols pairs each date column index
with its header date.  The stated total-steps column is parsed by the code
but never used in the produced record (the total is re-summed from the
date columns), so it is not a parameter here. -/
def parseRow (nameIndex : Nat) (distanceIndex : Option Nat)
    (dateCols : List (Nat × String)) (values : List String) : Option ParsedParticipant :=
  if nameIndex < values.length ∧ cellAt values nameIndex ≠ "" then
    let name := cellAt values nameIndex
    let totalDistance :=
      match distanceIndex with
      | some j => jsParseFloatOr0 (cellAt values j)
      | none => 0
    let dailySteps := dateCols.map (fun jc => (jc.2, jsParseIntOr0 (cellAt values jc.1)))
    let calculatedTotalSteps := (dailySteps.map Prod.snd).sum
    some
      { name := name
        totalSteps := calculatedTotalSteps
        totalDistance := totalDistance
        dailyData := dailySteps.map (fun sd =>
          { date := sd.1, steps := sd.2,
            distance := if 0 < calculatedTotalSteps
              then ((sd.2 : Rat) / (calculatedTotalSteps : Rat)) * totalDistance else 0 }) }
  else none

/-- All data rows, in order (rows failing the keep condition are skipped). -/
def parseDataRows (nameIndex : Nat) (distanceIndex : Option Nat)
    (dateCols : List (Nat × String)) (rows : List (List String)) : List ParsedParticipant :=
  rows.filterMap (parseRow nameIndex distanceIndex dateCols)

/-- Stated by the spec: the row has at least one numeric value in a date
column. -/
def rowHasNumericDate (dateCols : List (Nat × String)) (values : List String) : Prop :=
  ∃ jc ∈ dateCols, jsParseInt (cellAt values jc.1) ≠ none

instance (dateCols : List (Nat × String)) (values : List String) :
    Decidable (rowHasNumericDate dateCols values) := by
  unfold rowHasNumericDate; infer_instance

/-! ## Leaderboard entries and the scoring engine
(src/lib/dataService.ts, DataService.recalculatePointsForWeek) -/

structure EntryRow where
  id : Nat
  challenge_id : Nat
  participant_id : Nat
  steps : Int
  distance_mi : Rat
  points : Int
  rank : Int
  created_at : Nat
  updated_at : Nat
deriving DecidableEq

/-- The updates batch `entries.map((entry, index) => ({id, points:
totalParticipants - index, rank: index + 1}))`, written with an explicit
running index; n is the fetched length. -/
def pointUpdatesFrom (n i : Nat) : List EntryRow → List (Nat × Int × Int)
  | [] => []
  | e :: t => (e.id, (n : Int) - (i : Int), (i : Int) + 1) :: pointUpdatesFrom n (i + 1) t

def pointUpdates (entries : List EntryRow) : List (Nat × Int × Int) :=
  pointUpdatesFrom entries.length 0 entries

/-- The effect of the update batch on the fetched list itself: each entry
at position i receives points = n - i and rank = i + 1. -/
def assignPointsFrom (n i : Nat) : List EntryRow → List EntryRow
  | [] => []
  | e :: t =>
      { e with points := (n : Int) - (i : Int), rank := (i : Int) + 1 } :: assignPointsFrom n (i + 1) t

def assignPoints (entries : List EntryRow) : List EntryRow :=
  assignPointsFrom entries.length 0 entries

/-- recalculatePointsForWeek viewed on the fetched list: the store returns
the week's entries ordered by steps descending; with no entries the
function is a warning no-op, otherwise every fetched entry is rewritten
with its inverse-rank points and 1-indexed rank. -/
def recalcFetched (fetched : List EntryRow) : List EntryRow :=
  if fetched.isEmpty then fetched else assignPoints fetched

/-- The update loop `for (const update of updates) ... .update({points,
rank}).eq('id', update.id)` applied to a stored entry list. -/
def applyPointUpdates (updates : List (Nat × Int × Int)) (entries : List EntryRow) : List EntryRow :=
  updates.foldl
    (fun acc u => acc.map (fun e =>
      if e.id = u.1 then { e with points := u.2.1, rank := u.2.2 } else e))
    entries

/-- Insertion step of a stable sort by steps descending, modelling the
store's `order('steps', { ascending: false })`. -/
def insertEntryDesc (e : EntryRow) : List EntryRow → List EntryRow
  | [] => [e]
  | a :: t => if e.steps ≤ a.steps then a :: insertEntryDesc e t else e :: a :: t

def sortEntriesDesc : List EntryRow → List EntryRow
  | [] => []
  | a :: t => insertEntryDesc a (sortEntriesDesc t)

/-! ## The persistence state

Five logical tables; inserted rows append at the end and receive ids from
a counter.  Timestamps are abstract Nat instants: the store's default fills
created_at and updated_at with the current instant on insert (the
migration gives every table `DEFAULT timezone('utc', now())`), and the
update paths that mention updated_at set it explicitly. -/

structure ParticipantRow where
  id : Nat
  group_id : Nat
  name : String
  email : String
  is_active : Bool
deriving DecidableEq

structure DailyRow where
  id : Nat
  challenge_id : Nat
  participant_id : Nat
  step_date : Date
  steps : Int
  distance_mi : Rat
  created_at : Nat
  updated_at : Nat
deriving DecidableEq

structure ChallengeRow where
  id : Nat
  group_id : Nat
  week_start_date : Date
  week_end_date : Date
  week_number : Nat
  year : Nat
  title : String
  is_active : Bool
deriving DecidableEq

structure DB where
  nextId : Nat
  participants : List ParticipantRow
  challenges : List ChallengeRow
  daily_steps : List DailyRow
  entries : List EntryRow
deriving DecidableEq

def emptyDB : DB := ⟨0, [], [], [], []⟩

/-- Models PostgREST .single(): a value only when the filter matched
exactly one row, an error (null data) otherwise. -/
def single? {α : Type} (l : List α) : Option α :=
  match l with
  | [x] => some x
  | _ => none

/-- Models `[...new Set(xs)]`: deduplicate keeping first occurrences. -/
def jsSetDedupAux (seen : List Nat) : List Nat → List Nat
  | [] => []
  | a :: t => if a ∈ seen then jsSetDedupAux seen t else a :: jsSetDedupAux (a :: seen) t

def jsSetDedup (l : List Nat) : List Nat := jsSetDedupAux [] l

/-- DataService.recalculatePointsForWeek (dataService.ts lines 438-484)
against the store: fetch the week's entries ordered by steps descending,
return unchanged (warn) when empty, otherwise build the updates batch and
run the per-entry update loop. -/
def recalculatePointsForWeek (weekId : Nat) (db : DB) : DB :=
  let fetched := sortEntriesDesc (db.entries.filter (fun e => e.challenge_id == weekId))
  if fetched.isEmpty then db
  else { db with entries := applyPointUpdates (pointUpdates fetched) db.entries }

/-- DataService.deleteParticipant (part_008 lines 203-274): verify the
participant belongs to the group (error, nothing touched, otherwise), read
the weeks the participant has entries in, delete daily_steps then
leaderboard_entries then the participant row, and recalculate every
distinct affected week.  Returns the new state and affectedWeeks. -/
def deleteParticipant (participantId groupId : Nat) (db : DB) :
    Except String (DB × List Nat) :=
  match single? (db.participants.filter
      (fun p => p.id == participantId && p.group_id == groupId)) with
  | none => .error "Participant not found in this group"
  | some _ =>
      let entries := db.entries.filter (fun e => e.participant_id == participantId)
      let db1 := { db with
        daily_steps := db.daily_steps.filter (fun r => !(r.participant_id == participantId)) }
      let db2 := { db1 with
        entries := db1.entries.filter (fun e => !(e.participant_id == participantId)) }
      let db3 := { db2 with
        participants := db2.participants.filter
          (fun p => !(p.id == participantId && p.group_id == groupId)) }
      let affectedWeeks := jsSetDedup (entries.map (fun e => e.challenge_id))
      .ok (affectedWeeks.foldl (fun d w => recalculatePointsForWeek w d) db3, affectedWeeks)

/-! ## CSV upload persistence
(TaskBoard.tsx, saveParticipantsToDatabase lines 294-536)

The parsed rows arrive with their daily dates already converted from the
YYYY-MM-DD header strings to local-midnight dates. -/

structure UploadDay where
  date : Date
  steps : Int
  distance : Rat
deriving DecidableEq

structure UploadRow where
  name : String
  totalSteps : Int
  totalDistance : Rat
  dailyData : List UploadDay
deriving DecidableEq

/-- Insertion step of a stable sort of the parsed rows by
`(a, b) => b.totalSteps - a.totalSteps` (highest first). -/
def insertRowDesc (r : UploadRow) : List UploadRow → List UploadRow
  | [] => [r]
  | a :: t => if r.totalSteps ≤ a.totalSteps then a :: insertRowDesc r t else r :: a :: t

def sortRowsDesc : List UploadRow → List UploadRow
  | [] => []
  | a :: t => insertRowDesc a (sortRowsDesc t)

/-- Collapse every whitespace run to a single dot, the `\s+` replacement. -/
def squashWsAux (prevWs : Bool) : List Char → List Char
  | [] => []
  | c :: t =>
      if c.isWhitespace then
        (if prevWs then squashWsAux true t else '.' :: squashWsAux true t)
      else c :: squashWsAux false t

/-- The synthetic email of a CSV-created participant:
`name.toLowerCase().replace(/\s+/g, '.') + '@uploaded.com'`. -/
def mkUploadEmail (name : String) : String :=
  ⟨squashWsAux false name.toLower.toList⟩ ++ "@uploaded.com"

/-- One daily datum (TaskBoard.tsx lines 431-485): look the (challenge,
participant, date) row up; no row inserts a fresh one, exactly one row
updates steps, distance and updated_at in place, and a lookup error that
is not the no-rows code skips the day. -/
def processDay (now ch pid : Nat) (db : DB) (d : UploadDay) : DB :=
  match db.daily_steps.filter (fun r =>
      r.challenge_id == ch && r.participant_id == pid && r.step_date == d.date) with
  | [] =>
      { db with
        nextId := db.nextId + 1
        daily_steps := db.daily_steps ++
          [{ id := db.nextId, challenge_id := ch, participant_id := pid,
             step_date := d.date, steps := d.steps, distance_mi := d.distance,
             created_at := now, updated_at := now }] }
  | [r] =>
      { db with
        daily_steps := db.daily_steps.map (fun x =>
          if x.id = r.id then { x with steps := d.steps, distance_mi := d.distance, updated_at := now }
          else x) }
  | _ => db

/-- One participant of the loop (TaskBoard.tsx lines 395-528): find or
create the participant by (group, name), store each daily datum, then
update or insert the weekly leaderboard entry with the precomputed rank
and inverse-rank points. -/
def processRow (g ch now total : Nat) (db : DB) (irow : Nat × UploadRow) : DB :=
  let i := irow.1
  let row := irow.2
  let rank : Int := (i : Int) + 1
  let points : Int := (total : Int) - (i : Int)
  let found := single? (db.participants.filter (fun p => p.group_id == g && p.name == row.name))
  let pid :=
    match found with
    | some p => p.id
    | none => db.nextId
  let db :=
    match found with
    | some _ => db
    | none =>
        { db with
          nextId := db.nextId + 1
          participants := db.participants ++
            [{ id := db.nextId, group_id := g, name := row.name,
               email := mkUploadEmail row.name, is_active := true }] }
  let db := row.dailyData.foldl (processDay now ch pid) db
  match single? (db.entries.filter (fun e => e.challenge_id == ch && e.participant_id == pid)) with
  | some ex =>
      { db with
        entries := db.entries.map (fun x =>
          if x.id = ex.id then
            { x with steps := row.totalSteps, distance_mi := row.totalDistance,
                     points := points, rank := rank, updated_at := now }
          else x) }
  | none =>
      { db with
        nextId := db.nextId + 1
        entries := db.entries ++
          [{ id := db.nextId, challenge_id := ch, participant_id := pid,
             steps := row.totalSteps, distance_mi := row.totalDistance,
             points := points, rank := rank, created_at := now, updated_at := now }] }

/-- saveParticipantsToDatabase: resolve the week from the CSV dates, find
or create the weekly challenge for (group, week_number, year), sort the
parsed rows by total steps descending, and process each row in order. -/
def saveParticipantsToDatabase (groupId now : Nat) (rows : List UploadRow)
    (csvDates : List Date) (db : DB) : DB :=
  let wi := resolveWeek csvDates
  let foundCh := single? (db.challenges.filter (fun c =>
    c.group_id == groupId && c.week_number == wi.weekNumber && c.year == wi.year))
  let ch :=
    match foundCh with
    | some c => c.id
    | none => db.nextId
  let db :=
    match foundCh with
    | some _ => db
    | none =>
        let n := wi.weekNumber
        let y := wi.year
        { db with
          nextId := db.nextId + 1
          challenges := db.challenges ++
            [{ id := db.nextId, group_id := groupId, week_start_date := wi.weekStart,
               week_end_date := wi.weekEnd, week_number := n, year := y,
               title := s!"Week {n}, {y}", is_active := true }] }
  let sorted := sortRowsDesc rows
  sorted.enum.foldl (processRow groupId ch now sorted.length) db

/-! ## Manual-entry daily distribution
(part_008, DataService.createLeaderboardEntry lines 425-509) -/

structure SynthDaily where
  participant_id : Nat
  challenge_id : Nat
  step_date : Date
  steps : Nat
  distance_mi : Rat
deriving DecidableEq

/-- The seven synthesized daily rows: `Math.floor(totalSteps / 7)` per day
plus one of the `totalSteps % 7` remainder steps on each of the earliest
days, and the distance divided evenly by 7; day i is week_start_date plus
i days.  Manual totals are non-negative counts, so Nat division is exactly
the code's Math.floor. -/
def createDailyEntries (participantId challengeId : Nat) (weekStart : Date)
    (totalSteps : Nat) (totalDistance : Rat) : List SynthDaily :=
  let dailySteps := totalSteps / 7
  let remainderSteps := totalSteps % 7
  let dailyDistance := totalDistance / 7
  (List.range 7).map (fun i =>
    { participant_id := participantId
      challenge_id := challengeId
      step_date := addDays weekStart i
      steps := dailySteps + (if i < remainderSteps then 1 else 0)
      distance_mi := dailyDistance })

/-! ## All-time win-streak analytics
(part_008, DataService.getOverallAnalytics lines 937-987)

A daily record carries its calendar date as a linear day number: the code
keys days by their YYYY-MM-DD strings, whose default lexicographic sort
coincides with chronological order. -/

structure DailyDataRow where
  date : Nat
  name : String
  steps : Int
deriving DecidableEq

def insertNatAsc (x : Nat) : List Nat → List Nat
  | [] => [x]
  | a :: t => if x ≤ a then x :: a :: t else a :: insertNatAsc x t

def sortNatAsc : List Nat → List Nat
  | [] => []
  | a :: t => insertNatAsc a (sortNatAsc t)

/-- The sorted distinct recorded dates:
`[...new Set(dailyData.map(e => e.step_date))].sort()`. -/
def allDatesOf (rows : List DailyDataRow) : List Nat :=
  sortNatAsc (jsSetDedup (rows.map (fun r => r.date)))

/-- The day's winner: `dayEntries.reduce((best, current) => current.steps >
best.steps ? current : best)` over the rows of that date (earliest row wins
ties); none when the date has no rows. -/
def dayWinner (rows : List DailyDataRow) (d : Nat) : Option String :=
  match rows.filter (fun r => r.date == d) with
  | [] => none
  | h :: t => some ((t.foldl (fun best cur => if best.steps < cur.steps then cur else best) h).name)

/-- The win-streak loop (part_008 lines 963-976): walk allDates in order,
incrementing a current streak on each date the participant won and
resetting it to zero otherwise, tracking the running maximum. -/
def maxWinStreak (rows : List DailyDataRow) (name : String) : Nat :=
  ((allDatesOf rows).foldl
    (fun acc d =>
      if dayWinner rows d == some name then (acc.1 + 1, max acc.2 (acc.1 + 1))
      else (0, acc.2))
    (0, 0)).2

/-- Length of the longest prefix of true flags. -/
def leadingRun : List Bool → Nat
  | [] => 0
  | b :: t => if b then leadingRun t + 1 else 0

/-- Length of the longest contiguous run of true flags. -/
def longestRun : List Bool → Nat
  | [] => 0
  | b :: t => max (leadingRun (b :: t)) (longestRun t)

/-- Win flags of one participant along the sorted recorded dates. -/
def winFlags (rows : List DailyDataRow) (name : String) : List Bool :=
  (allDatesOf rows).map (fun d => dayWinner rows d == some name)

/-- Stated by the spec: the longest run of consecutive CALENDAR dates on
which the participant was the daily winner; a day with no recorded data
has no winner and breaks any run. -/
def calendarWinStreak (rows : List DailyDataRow) (name : String) : Nat :=
  let dates := allDatesOf rows
  let lo := dates.headD 0
  let hi := dates.foldl max 0
  longestRun ((List.range (hi + 1 - lo)).map (fun k => dayWinner rows (lo + k) == some name))

/-- The fields of a leaderboard entry other than points and rank. -/
def entryFrame (e : EntryRow) : Nat × Nat × Nat × Int × Rat × Nat × Nat :=
  (e.id, e.challenge_id, e.participant_id, e.steps, e.distance_mi, e.created_at, e.updated_at)

/-- A small concrete store: one participant of group 5 with a daily row and
an entry in week 100, next to another participant's entry in the same
week.  Used to instantiate the deletion theorem. -/
def dbW : DB :=
  ⟨10, [⟨0, 5, "Alice", "alice@uploaded.com", true⟩], [],
    [⟨0, 100, 0, ⟨2024, 1, 15⟩, 500, 1, 0, 0⟩],
    [⟨1, 100, 0, 500, 1, 0, 0, 0, 0⟩, ⟨2, 100, 7, 900, 2, 0, 0, 0, 0⟩]⟩

/-! ## Closed form of a CSV upload into an empty store
(used to analyse a repeated identical upload) -/

/-- The participant row the upload inserts for a fresh name. -/
def mkParticipant (g pid : Nat) (name : String) : ParticipantRow :=
  ⟨pid, g, name, mkUploadEmail name, true⟩

/-- The daily rows the upload inserts for a fresh participant, ids drawn
sequentially from base. -/
def mkDailyRows (ch pid now : Nat) : Nat → List UploadDay → List DailyRow
  | _, [] => []
  | base, d :: t =>
      ⟨base, ch, pid, d.date, d.steps, d.distance, now, now⟩ ::
        mkDailyRows ch pid now (base + 1) t

/-- The leaderboard entry the upload inserts for a fresh participant. -/
def mkEntry (ch pid now eid : Nat) (r : UploadRow) (points rank : Int) : EntryRow :=
  ⟨eid, ch, pid, r.totalSteps, r.totalDistance, points, rank, now, now⟩

/-- The rows created by uploading `rows` (already sorted, the first at
sorted position i of total) into a store that holds none of them: per row
one participant id, one id per daily row and one entry id, all drawn
sequentially from base.  Returns (participants, daily rows, entries, next
free id). -/
def freshUpload (g ch now total : Nat) :
    Nat → Nat → List UploadRow →
      List ParticipantRow × List DailyRow × List EntryRow × Nat
  | base, _, [] => ([], [], [], base)
  | base, i, r :: rest =>
      let dRows := mkDailyRows ch base now (base + 1) r.dailyData
      let eid := base + 1 + r.dailyData.length
      let e := mkEntry ch base now eid r ((total : Int) - (i : Int)) ((i : Int) + 1)
      let tl := freshUpload g ch now total (eid + 1) (i + 1) rest
      (mkParticipant g base r.name :: tl.1, dRows ++ tl.2.1, e :: tl.2.2.1, tl.2.2.2)

/-- The challenge row the first upload into an empty store creates. -/
def uploadChallenge (g : Nat) (csvDates : List Date) : ChallengeRow :=
  ⟨0, g, (resolveWeek csvDates).weekStart, (resolveWeek csvDates).weekEnd,
   (resolveWeek csvDates).weekNumber, (resolveWeek csvDates).year,
   s!"Week {(resolveWeek csvDates).weekNumber}, {(resolveWeek csvDates).year}", true⟩

/-- Rewrite only updated_at on the daily rows matching the given keys
(the visible effect of re-storing a day that is already present with the
same values). -/
def touchDaily (now ch pid : Nat) (dates : List Date) (x : DailyRow) : DailyRow :=
  if x.challenge_id = ch ∧ x.participant_id = pid ∧ x.step_date ∈ dates
  then { x with updated_at := now } else x

/-- Rewrite only updated_at on the entries matching the given keys. -/
def touchEntry (now ch pid : Nat) (e : EntryRow) : EntryRow :=
  if e.challenge_id = ch ∧ e.participant_id = pid
  then { e with updated_at := now } else e

/-- Every field of a daily-steps row except updated_at. -/
def dailySansUpd (r : DailyRow) : Nat × Nat × Nat × Date × Int × Rat × Nat :=
  (r.id, r.challenge_id, r.participant_id, r.step_date, r.steps, r.distance_mi, r.created_at)

/-- Every field of a leaderboard entry except updated_at. -/
def entrySansUpd (e : EntryRow) : Nat × Nat × Nat × Int × Rat × Int × Int × Nat :=
  (e.id, e.challenge_id, e.participant_id, e.steps, e.distance_mi, e.points, e.rank, e.created_at)

/-!
# Theorems
-/

set_option maxRecDepth 8000

/-! ## Calendar lemmas -/

theorem daysBeforeYear_succ (y : Nat) :
    daysBeforeYear (y + 1) = daysBeforeYear y + daysInYear (y + 1) := by
  have e4 : (y + 1) % 4 = 0 → (y + 1) / 4 = y / 4 + 1 := by omega
  have e4n : (y + 1) % 4 ≠ 0 → (y + 1) / 4 = y / 4 := by omega
  have e100 : (y + 1) % 100 = 0 → (y + 1) / 100 = y / 100 + 1 := by omega
  have e100n : (y + 1) % 100 ≠ 0 → (y + 1) / 100 = y / 100 := by omega
  have e400 : (y + 1) % 400 = 0 → (y + 1) / 400 = y / 400 + 1 := by omega
  have e400n : (y + 1) % 400 ≠ 0 → (y + 1) / 400 = y / 400 := by omega
  have h41 : (y + 1) % 400 = 0 → (y + 1) % 4 = 0 := by omega
  have h42 : (y + 1) % 400 = 0 → (y + 1) % 100 = 0 := by omega
  have h43 : (y + 1) % 100 = 0 → (y + 1) % 4 = 0 := by omega
  unfold daysBeforeYear daysInYear isLeap
  by_cases h : ((y + 1) % 4 = 0 ∧ (y + 1) % 100 ≠ 0) ∨ (y + 1) % 400 = 0
  · rw [if_pos (decide_eq_true h)]
    rcases h with ⟨h1, h2⟩ | h1
    · rw [e4 h1, e100n h2]
      by_cases h3 : (y + 1) % 400 = 0
      · exact absurd (h42 h3) h2
      · rw [e400n h3]; omega
    · rw [e4 (h41 h1), e100 (h42 h1), e400 h1]; omega
  · rw [if_neg (fun hc => h (of_decide_eq_true hc))]
    have h1 : (y + 1) % 400 ≠ 0 := fun hc => h (Or.inr hc)
    rw [e400n h1]
    by_cases h2 : (y + 1) % 4 = 0
    · have h3 : (y + 1) % 100 = 0 := by
        by_contra hc; exact h (Or.inl ⟨h2, hc⟩)
      rw [e4 h2, e100 h3]; omega
    · have h3 : (y + 1) % 100 ≠ 0 := fun hc => h2 (h43 hc)
      rw [e4n h2, e100n h3]; omega

theorem daysInMonth_pos (y m : Nat) : 1 ≤ daysInMonth y m := by
  unfold daysInMonth
  split
  · split <;> omega
  · split <;> omega

theorem cumDays_twelve (y : Nat) : cumDays y 12 = daysInYear y := by
  rcases h : isLeap y <;>
    simp [cumDays, daysInMonth, daysInYear, h]

theorem valid_mk (y m dd : Nat) :
    (Date.mk y m dd).Valid ↔ 1 ≤ y ∧ 1 ≤ m ∧ m ≤ 12 ∧ 1 ≤ dd ∧ dd ≤ daysInMonth y m :=
  Iff.rfl

theorem dayNumber_mk (y m dd : Nat) :
    dayNumber ⟨y, m, dd⟩ = daysBeforeYear (y - 1) + (cumDays y (m - 1) + dd) :=
  rfl

theorem dayOfYear_pos (d : Date) (hv : d.Valid) : 1 ≤ dayOfYear d := by
  obtain ⟨hy, hm1, hm2, hd1, hd2⟩ := hv
  unfold dayOfYear
  omega

theorem nextDay_valid (d : Date) (hv : d.Valid) : (nextDay d).Valid := by
  obtain ⟨hy, hm1, hm2, hd1, hd2⟩ := hv
  unfold nextDay
  split
  · rw [valid_mk]
    exact ⟨hy, hm1, hm2, by omega, by omega⟩
  · split
    · rw [valid_mk]
      exact ⟨hy, by omega, by omega, by omega, daysInMonth_pos _ _⟩
    · rw [valid_mk]
      exact ⟨by omega, by omega, by omega, by omega, daysInMonth_pos _ _⟩

theorem cumDays_unfold (y m : Nat) (h : 1 ≤ m) :
    cumDays y m = cumDays y (m - 1) + daysInMonth y m := by
  obtain ⟨k, rfl⟩ : ∃ k, m = k + 1 := ⟨m - 1, by omega⟩
  simp [cumDays]

theorem dayNumber_nextDay (d : Date) (hv : d.Valid) :
    dayNumber (nextDay d) = dayNumber d + 1 := by
  obtain ⟨hy, hm1, hm2, hd1, hd2⟩ := hv
  unfold nextDay
  split
  · rw [dayNumber_mk, dayNumber_mk]
    omega
  · split
    · rename_i hlt hm12
      rw [dayNumber_mk, dayNumber_mk]
      have e1 : d.month + 1 - 1 = d.month := by omega
      rw [e1, cumDays_unfold d.year d.month hm1]
      omega
    · rename_i hlt hm12
      have hm : d.month = 12 := by omega
      have hd31 : d.day = 31 := by
        have h31 : daysInMonth d.year d.month = 31 := by
          rw [hm]; simp [daysInMonth]
        omega
      obtain ⟨y1, hy1⟩ : ∃ y1, d.year = y1 + 1 := ⟨d.year - 1, by omega⟩
      rw [dayNumber_mk, dayNumber_mk, hm, hd31, hy1]
      have e1 : y1 + 1 + 1 - 1 = y1 + 1 := by omega
      have e2 : y1 + 1 - 1 = y1 := by omega
      have e3 : (12 : Nat) - 1 = 11 := by omega
      have e4 : (1 : Nat) - 1 = 0 := by omega
      rw [e1, e2, e3, e4, daysBeforeYear_succ y1]
      have h5 : cumDays (y1 + 1) 12 = daysInYear (y1 + 1) := cumDays_twelve _
      have h6 : cumDays (y1 + 1) 12 = cumDays (y1 + 1) 11 + daysInMonth (y1 + 1) 12 := by
        simpa using cumDays_unfold (y1 + 1) 12 (by omega)
      have h7 : daysInMonth (y1 + 1) 12 = 31 := by simp [daysInMonth]
      have h8 : cumDays (y1 + 1 + 1) 0 = 0 := rfl
      omega

theorem addDays_valid (d : Date) (k : Nat) (hv : d.Valid) : (addDays d k).Valid := by
  induction k with
  | zero => exact hv
  | succ n ih => exact nextDay_valid _ ih

theorem dayNumber_addDays (d : Date) (k : Nat) (hv : d.Valid) :
    dayNumber (addDays d k) = dayNumber d + k := by
  induction k with
  | zero => rfl
  | succ n ih =>
      have h := dayNumber_nextDay (addDays d n) (addDays_valid d n hv)
      simp only [addDays, h, ih]
      omega

theorem prevDay_valid (d : Date) (hv : d.Valid) (h2 : 2 ≤ dayNumber d) :
    (prevDay d).Valid := by
  obtain ⟨hy, hm1, hm2, hd1, hd2⟩ := hv
  unfold prevDay
  split
  · rw [valid_mk]
    exact ⟨hy, hm1, hm2, by omega, by omega⟩
  · split
    · rw [valid_mk]
      exact ⟨hy, by omega, by omega, daysInMonth_pos _ _, le_refl _⟩
    · have hm : d.month = 1 := by omega
      have hd : d.day = 1 := by omega
      have hyy : 2 ≤ d.year := by
        by_contra hc
        have hy1 : d.year = 1 := by omega
        have hone : dayNumber d = 1 := by
          have : d = ⟨1, 1, 1⟩ := by
            cases d; simp_all
          rw [this, dayNumber_mk]
          simp [daysBeforeYear, cumDays]
        omega
      rw [valid_mk]
      refine ⟨by omega, by omega, by omega, by omega, ?_⟩
      simp [daysInMonth]

theorem dayNumber_prevDay (d : Date) (hv : d.Valid) (h2 : 2 ≤ dayNumber d) :
    dayNumber (prevDay d) + 1 = dayNumber d := by
  obtain ⟨hy, hm1, hm2, hd1, hd2⟩ := hv
  unfold prevDay
  split
  · rw [dayNumber_mk, dayNumber_mk]
    omega
  · split
    · rename_i hd2' hm2'
      have hd' : d.day = 1 := by omega
      rw [dayNumber_mk, dayNumber_mk, hd']
      rw [cumDays_unfold d.year (d.month - 1) (by omega)]
      omega
    · rename_i hd2' hm2'
      have hd' : d.day = 1 := by omega
      have hm' : d.month = 1 := by omega
      have hyy : 2 ≤ d.year := by
        by_contra hc
        have hy1 : d.year = 1 := by omega
        have hone : dayNumber d = 1 := by
          have hd111 : d = ⟨1, 1, 1⟩ := by
            cases d; simp_all
          rw [hd111, dayNumber_mk]
          simp [daysBeforeYear, cumDays]
        omega
      obtain ⟨y1, hy1⟩ : ∃ y1, d.year = y1 + 2 := ⟨d.year - 2, by omega⟩
      rw [dayNumber_mk, dayNumber_mk, hm', hd', hy1]
      have e1 : y1 + 2 - 1 = y1 + 1 := by omega
      rw [e1]
      have e2 : y1 + 1 - 1 = y1 := by omega
      have e3 : (12 : Nat) - 1 = 11 := by omega
      have e4 : (1 : Nat) - 1 = 0 := by omega
      rw [e2, e3, e4, daysBeforeYear_succ y1]
      have h5 : cumDays (y1 + 1) 12 = daysInYear (y1 + 1) := cumDays_twelve _
      have h6 : cumDays (y1 + 1) 12 = cumDays (y1 + 1) 11 + daysInMonth (y1 + 1) 12 := by
        simpa using cumDays_unfold (y1 + 1) 12 (by omega)
      have h7 : daysInMonth (y1 + 1) 12 = 31 := by simp [daysInMonth]
      have h8 : cumDays (y1 + 2) 0 = 0 := rfl
      omega

theorem subDays_valid_dayNumber (d : Date) (k : Nat) (hv : d.Valid)
    (h : k + 1 ≤ dayNumber d) :
    (subDays d k).Valid ∧ dayNumber (subDays d k) + k = dayNumber d := by
  induction k with
  | zero => exact ⟨hv, rfl⟩
  | succ n ih =>
      obtain ⟨ihv, ihn⟩ := ih (by omega)
      have h2 : 2 ≤ dayNumber (subDays d n) := by omega
      constructor
      · exact prevDay_valid _ ihv h2
      · have hp := dayNumber_prevDay _ ihv h2
        simp only [subDays]
        omega

theorem dayNumber_yearStart (d : Date) (hv : d.Valid) :
    dayNumber d - dayNumber ⟨d.year, 1, 1⟩ + 1 = dayOfYear d := by
  have h2 : 1 ≤ dayOfYear d := dayOfYear_pos d hv
  have h1 : dayNumber ⟨d.year, 1, 1⟩ = daysBeforeYear (d.year - 1) + 1 := by
    rw [dayNumber_mk]
    simp [cumDays]
  have hdn : dayNumber d = daysBeforeYear (d.year - 1) + dayOfYear d := rfl
  omega

theorem isoWeekday_bounds (d : Date) : 1 ≤ isoWeekday d ∧ isoWeekday d ≤ 7 := by
  unfold isoWeekday jsGetDay
  have h : dayNumber d % 7 < 7 := Nat.mod_lt _ (by omega)
  split <;> omega

theorem isoThursday_spec (d : Date) (hv : d.Valid) (h4 : 4 ≤ dayNumber d) :
    (isoThursday d).Valid ∧
      (dayNumber (isoThursday d) : Int) = (dayNumber d : Int) + (4 - (isoWeekday d : Int)) := by
  obtain ⟨hw1, hw7⟩ := isoWeekday_bounds d
  unfold isoThursday shiftDays
  by_cases hc : (0 : Int) ≤ 4 - (isoWeekday d : Int)
  · rw [if_pos hc]
    have hn : ((4 : Int) - (isoWeekday d : Int)).toNat = 4 - isoWeekday d := by omega
    rw [hn]
    refine ⟨addDays_valid _ _ hv, ?_⟩
    rw [dayNumber_addDays _ _ hv]
    omega
  · rw [if_neg hc]
    have hn : (-((4 : Int) - (isoWeekday d : Int))).toNat = isoWeekday d - 4 := by omega
    rw [hn]
    obtain ⟨hvv, heq⟩ := subDays_valid_dayNumber d (isoWeekday d - 4) hv (by omega)
    exact ⟨hvv, by omega⟩

/-! ## Week resolver claims -/

/-- C9: for the input dates 2024-01-15 (a Monday) through 2024-01-21
(a Sunday), the week resolver returns week start 2024-01-15, week end
2024-01-21, week_number 3 and year 2024. -/
theorem c9_week_resolution :
    resolveWeek [⟨2024, 1, 15⟩, ⟨2024, 1, 16⟩, ⟨2024, 1, 17⟩, ⟨2024, 1, 18⟩,
        ⟨2024, 1, 19⟩, ⟨2024, 1, 20⟩, ⟨2024, 1, 21⟩] =
      { weekStart := ⟨2024, 1, 15⟩, weekEnd := ⟨2024, 1, 21⟩, weekNumber := 3, year := 2024 } := by
  decide

/-- C3 counterexample: for the anchor 2024-12-30 the code computes ISO week
number 1 (the Thursday shift lands on 2025-01-02), but records year 2024 —
the anchor's own year, not the shifted date's year 2025 as the claim
states. -/
theorem c3_year_counterexample :
    (resolveWeek [⟨2024, 12, 30⟩]).weekNumber = 1 ∧
    (resolveWeek [⟨2024, 12, 30⟩]).year = 2024 ∧
    (isoThursday ⟨2024, 12, 30⟩).year = 2025 ∧
    (resolveWeek [⟨2024, 12, 30⟩]).year ≠ (isoThursday ⟨2024, 12, 30⟩).year := by
  decide

/-- C3 amended: the week number is computed by shifting the anchor to its
Thursday and taking the ceiling of dayOfYear(shifted) / 7, as the claim
states; but the year recorded for the challenge is the anchor date's own
year, not the shifted date's year, so a week spanning a year boundary keeps
the anchor's year next to the shifted-year week number. -/
theorem c3_week_number_amended (d : Date) (hv : d.Valid) (h4 : 4 ≤ dayNumber d) :
    getWeekNumber d = (dayOfYear (isoThursday d) + 6) / 7 ∧
    (resolveWeek [d]).year = d.year := by
  obtain ⟨hvt, hdt⟩ := isoThursday_spec d hv h4
  constructor
  · simp only [getWeekNumber]
    have hys := dayNumber_yearStart (isoThursday d) hvt
    omega
  · rfl

/-- Closed instance of the hypotheses of c3_week_number_amended at the
Monday anchor 2024-01-15, together with its conclusion there. -/
theorem c3_week_number_amended_witness :
    ((⟨2024, 1, 15⟩ : Date).Valid ∧ 4 ≤ dayNumber ⟨2024, 1, 15⟩) ∧
    (getWeekNumber ⟨2024, 1, 15⟩ = (dayOfYear (isoThursday ⟨2024, 1, 15⟩) + 6) / 7 ∧
      (resolveWeek [⟨2024, 1, 15⟩]).year = (⟨2024, 1, 15⟩ : Date).year) :=
  ⟨⟨by decide, by decide⟩, c3_week_number_amended ⟨2024, 1, 15⟩ (by decide) (by decide)⟩

/-- C4 counterexample: with the date columns listed out of order the code
anchors on the first-listed column 2024-01-22 (week 4), not on the earliest
date 2024-01-15 (week 3) as the claim states. -/
theorem c4_anchor_counterexample :
    resolveWeek [⟨2024, 1, 22⟩, ⟨2024, 1, 15⟩] ≠
      resolveWeek [earliestDate [⟨2024, 1, 22⟩, ⟨2024, 1, 15⟩]] ∧
    earliestDate [⟨2024, 1, 22⟩, ⟨2024, 1, 15⟩] = ⟨2024, 1, 15⟩ ∧
    (resolveWeek [⟨2024, 1, 22⟩, ⟨2024, 1, 15⟩]).weekNumber = 4 ∧
    (resolveWeek [earliestDate [⟨2024, 1, 22⟩, ⟨2024, 1, 15⟩]]).weekNumber = 3 := by
  decide

/-- C4 amended: the week resolver anchors on the FIRST date column in
header order; when the date columns appear in ascending calendar order the
anchor coincides with the earliest date of the set, and the resolved week
equals the week of that earliest date. -/
theorem c4_anchor_amended (d : Date) (rest : List Date)
    (hsorted : (d :: rest).Pairwise (fun a b => dayNumber a < dayNumber b)) :
    earliestDate (d :: rest) = d ∧
    resolveWeek (d :: rest) = resolveWeek [earliestDate (d :: rest)] := by
  have hall : ∀ b ∈ rest, ¬ dayNumber b < dayNumber d := by
    intro b hb
    have h := (List.pairwise_cons.mp hsorted).1 b hb
    omega
  have hhead : earliestDate (d :: rest) = d := by
    unfold earliestDate
    simp only [List.headD, List.foldl_cons]
    rw [if_neg (by omega)]
    induction rest with
    | nil => rfl
    | cons a t ih =>
        rw [List.foldl_cons, if_neg (hall a (by simp))]
        exact ih (by
          have h := List.pairwise_cons.mp hsorted
          exact List.Pairwise.cons (fun b hb => h.1 b (List.mem_cons_of_mem a hb))
            (List.pairwise_cons.mp h.2).2)
          (fun b hb => hall b (List.mem_cons_of_mem a hb))
  refine ⟨hhead, ?_⟩
  rw [hhead]
  rfl

/-- Closed instance of the hypotheses of c4_anchor_amended on an in-order
two-column CSV, with its conclusion there. -/
theorem c4_anchor_amended_witness :
    ([⟨2024, 1, 15⟩, ⟨2024, 1, 16⟩] : List Date).Pairwise
        (fun a b => dayNumber a < dayNumber b) ∧
    (earliestDate [⟨2024, 1, 15⟩, ⟨2024, 1, 16⟩] = ⟨2024, 1, 15⟩ ∧
      resolveWeek [⟨2024, 1, 15⟩, ⟨2024, 1, 16⟩] =
        resolveWeek [earliestDate [⟨2024, 1, 15⟩, ⟨2024, 1, 16⟩]]) :=
  ⟨by decide, c4_anchor_amended ⟨2024, 1, 15⟩ [⟨2024, 1, 16⟩] (by decide)⟩

/-! ## CSV row filtering claims -/

/-- C5 counterexample: the row Alice,abc under header Name,2024-01-15 has
a non-empty name but no numeric date value; the claim says it is skipped,
yet the parser keeps it as a participant with zero steps. -/
theorem c5_row_filter_counterexample :
    (parseDataRows 0 none [(1, "2024-01-15")] [["Alice", "abc"]]).length = 1 ∧
    ¬ rowHasNumericDate [(1, "2024-01-15")] ["Alice", "abc"] ∧
    parseDataRows 0 none [(1, "2024-01-15")] [["Alice", "abc"]] =
      [{ name := "Alice", totalSteps := 0, totalDistance := 0,
         dailyData := [{ date := "2024-01-15", steps := 0, distance := 0 }] }] := by
  decide

/-- C5 amended: a data row is kept exactly when its name cell exists and is
non-empty (no numeric date value is required); in kept rows every date cell
parses through the parseInt-or-0 fallback, so every non-numeric cell
contributes 0 steps, and the row's total is the sum of its daily steps. -/
theorem c5_row_filter_amended (nameIndex : Nat) (distanceIndex : Option Nat)
    (dateCols : List (Nat × String)) (values : List String) :
    ((parseRow nameIndex distanceIndex dateCols values).isSome ↔
      (nameIndex < values.length ∧ cellAt values nameIndex ≠ "")) ∧
    (∀ p, parseRow nameIndex distanceIndex dateCols values = some p →
      p.dailyData.map (fun dd => (dd.date, dd.steps)) =
        dateCols.map (fun jc => (jc.2, jsParseIntOr0 (cellAt values jc.1))) ∧
      p.totalSteps = (p.dailyData.map (fun dd => dd.steps)).sum) ∧
    (∀ s, jsParseInt s = none → jsParseIntOr0 s = 0) := by
  refine ⟨?_, ?_, ?_⟩
  · unfold parseRow
    split
    · simp_all
    · simp_all
  · intro p hp
    unfold parseRow at hp
    split at hp
    · simp only [Option.some.injEq] at hp
      subst hp
      constructor
      · simp [List.map_map, Function.comp_def]
      · simp [List.map_map, Function.comp_def]
    · exact absurd hp (by simp)
  · intro s hs
    simp [jsParseIntOr0, hs]

/-! ## Manual-entry distribution claim -/

theorem sum_range_distribute (n q r : Nat) :
    ((List.range n).map (fun i => q + if i < r then 1 else 0)).sum = n * q + min r n := by
  induction n with
  | zero => simp
  | succ m ih =>
      rw [List.range_succ, List.map_append, List.sum_append]
      simp only [List.map_cons, List.map_nil, List.sum_cons, List.sum_nil]
      have hmul : (m + 1) * q = m * q + q := by ring
      by_cases h : m < r
      · rw [if_pos h]
        simp only [Nat.min_def] at ih ⊢
        split_ifs at ih ⊢ <;> omega
      · rw [if_neg h]
        simp only [Nat.min_def] at ih ⊢
        split_ifs at ih ⊢ <;> omega

/-- C2: the synthesized daily rows of a manual entry: exactly 7 rows on
strictly increasing dates starting at the week's first day, where day i
gets floor(T/7) + 1 steps when i < T mod 7 and floor(T/7) otherwise, each
day gets distance D/7, and the daily steps sum back to exactly T. -/
theorem c2_daily_distribution (pid ch : Nat) (ws : Date) (T : Nat) (D : Rat)
    (hv : ws.Valid) :
    (createDailyEntries pid ch ws T D).length = 7 ∧
    (∀ i, (h : i < (createDailyEntries pid ch ws T D).length) →
      (createDailyEntries pid ch ws T D)[i].steps = T / 7 + (if i < T % 7 then 1 else 0) ∧
      (createDailyEntries pid ch ws T D)[i].distance_mi = D / 7 ∧
      (createDailyEntries pid ch ws T D)[i].step_date = addDays ws i) ∧
    ((createDailyEntries pid ch ws T D).map (fun r => r.steps)).sum = T ∧
    ((createDailyEntries pid ch ws T D).map (fun r => r.step_date)).Pairwise
      (fun a b => dayNumber a < dayNumber b) := by
  refine ⟨by simp [createDailyEntries], ?_, ?_, ?_⟩
  · intro i h
    have hi : i < 7 := by simpa [createDailyEntries] using h
    refine ⟨?_, ?_, ?_⟩ <;> simp [createDailyEntries, hi]
  · have hs : (createDailyEntries pid ch ws T D).map (fun r => r.steps) =
        (List.range 7).map (fun i => T / 7 + if i < T % 7 then 1 else 0) := rfl
    rw [hs, sum_range_distribute]
    have hm : T % 7 < 7 := Nat.mod_lt _ (by omega)
    simp only [Nat.min_def]
    split_ifs <;> omega
  · simp only [createDailyEntries, List.map_map]
    refine List.pairwise_map.mpr ?_
    have hr : (List.range 7).Pairwise (· < ·) := List.pairwise_lt_range 7
    refine hr.imp ?_
    intro i j hij
    show dayNumber (addDays ws i) < dayNumber (addDays ws j)
    rw [dayNumber_addDays _ _ hv, dayNumber_addDays _ _ hv]
    omega

/-- Closed instance of c2_daily_distribution at the spec's 703-step
example over the week starting Monday 2024-01-15. -/
theorem c2_daily_distribution_witness :
    (⟨2024, 1, 15⟩ : Date).Valid ∧
    ((createDailyEntries 1 2 ⟨2024, 1, 15⟩ 703 7).length = 7 ∧
      (∀ i, (h : i < (createDailyEntries 1 2 ⟨2024, 1, 15⟩ 703 7).length) →
        (createDailyEntries 1 2 ⟨2024, 1, 15⟩ 703 7)[i].steps =
          703 / 7 + (if i < 703 % 7 then 1 else 0) ∧
        (createDailyEntries 1 2 ⟨2024, 1, 15⟩ 703 7)[i].distance_mi = 7 / 7 ∧
        (createDailyEntries 1 2 ⟨2024, 1, 15⟩ 703 7)[i].step_date = addDays ⟨2024, 1, 15⟩ i) ∧
      ((createDailyEntries 1 2 ⟨2024, 1, 15⟩ 703 7).map (fun r => r.steps)).sum = 703 ∧
      ((createDailyEntries 1 2 ⟨2024, 1, 15⟩ 703 7).map (fun r => r.step_date)).Pairwise
        (fun a b => dayNumber a < dayNumber b)) :=
  ⟨by decide, c2_daily_distribution 1 2 ⟨2024, 1, 15⟩ 703 7 (by decide)⟩

/-! ## Scoring engine lemmas -/

theorem assignPointsFrom_length (n i : Nat) (l : List EntryRow) :
    (assignPointsFrom n i l).length = l.length := by
  induction l generalizing i with
  | nil => rfl
  | cons e t ih => simp [assignPointsFrom, ih]

theorem assignPointsFrom_map_points (n i : Nat) (l : List EntryRow) :
    (assignPointsFrom n i l).map (fun e => e.points) =
      (List.range l.length).map (fun j : Nat => (n : Int) - (i : Int) - (j : Int)) := by
  induction l generalizing i with
  | nil => rfl
  | cons e t ih =>
      simp only [assignPointsFrom, List.map_cons, List.length_cons, List.range_succ_eq_map,
        List.map_map]
      refine List.cons_eq_cons.mpr ⟨?_, ?_⟩
      · show ((n : Int) - (i : Int)) = _
        push_cast
        ring
      · rw [ih]
        refine List.map_congr_left ?_
        intro j hj
        simp only [Function.comp_def]
        push_cast
        ring

theorem assignPointsFrom_map_rank (n i : Nat) (l : List EntryRow) :
    (assignPointsFrom n i l).map (fun e => e.rank) =
      (List.range l.length).map (fun j : Nat => (i : Int) + (j : Int) + 1) := by
  induction l generalizing i with
  | nil => rfl
  | cons e t ih =>
      simp only [assignPointsFrom, List.map_cons, List.length_cons, List.range_succ_eq_map,
        List.map_map]
      refine List.cons_eq_cons.mpr ⟨?_, ?_⟩
      · show ((i : Int) + 1) = _
        push_cast
        ring
      · rw [ih]
        refine List.map_congr_left ?_
        intro j hj
        simp only [Function.comp_def]
        push_cast
        ring

theorem assignPointsFrom_map_frame (n i : Nat) (l : List EntryRow) :
    (assignPointsFrom n i l).map entryFrame = l.map entryFrame := by
  induction l generalizing i with
  | nil => rfl
  | cons e t ih => simp [assignPointsFrom, ih, entryFrame]

theorem neg_range_perm (n : Nat) :
    ((List.range n).map (fun j : Nat => (n : Int) - (j : Int))).Perm
      ((List.range n).map (fun j : Nat => (j : Int) + 1)) := by
  induction n with
  | zero => simp
  | succ m ih =>
      conv_lhs => rw [List.range_succ_eq_map, List.map_cons, List.map_map]
      conv_rhs => rw [List.range_succ, List.map_append]
      have h1 : (List.range m).map ((fun j : Nat => ((m + 1 : Nat) : Int) - (j : Int)) ∘ Nat.succ) =
          (List.range m).map (fun j : Nat => (m : Int) - (j : Int)) := by
        refine List.map_congr_left ?_
        intro j hj
        simp only [Function.comp_def]
        push_cast
        ring
      have h2 : ((m + 1 : Nat) : Int) - ((0 : Nat) : Int) = (m : Int) + 1 := by push_cast; ring
      rw [h1, h2]
      refine List.Perm.trans (List.Perm.cons _ ih) ?_
      have h4 : (List.map (fun j : Nat => (j : Int) + 1) [m]) = [(m : Int) + 1] := by simp
      rw [h4]
      exact (List.perm_append_singleton _ _).symm

theorem recalcFetched_of_ne_nil (l : List EntryRow) (h : l ≠ []) :
    recalcFetched l = assignPointsFrom l.length 0 l := by
  unfold recalcFetched
  rw [if_neg (by simpa using h)]
  rfl

theorem assignPointsFrom_mem (n i : Nat) (l : List EntryRow) (b : EntryRow)
    (hb : b ∈ assignPointsFrom n i l) :
    ∃ a ∈ l, b.steps = a.steps ∧ ∃ k : Nat, i ≤ k ∧ b.points = (n : Int) - (k : Int) := by
  induction l generalizing i with
  | nil => simp [assignPointsFrom] at hb
  | cons e t ih =>
      simp only [assignPointsFrom, List.mem_cons] at hb
      rcases hb with hb | hb
      · exact ⟨e, by simp, by simp [hb], ⟨i, le_refl _, by simp [hb]⟩⟩
      · obtain ⟨a, ha, hs, k, hk, hp⟩ := ih (i + 1) hb
        exact ⟨a, by simp [ha], hs, ⟨k, by omega, hp⟩⟩

theorem assignPointsFrom_pairwise (n i : Nat) (l : List EntryRow)
    (hsort : l.Pairwise (fun a b => b.steps ≤ a.steps)) :
    (assignPointsFrom n i l).Pairwise
      (fun a b => b.steps ≤ a.steps ∧ b.points < a.points) := by
  induction l generalizing i with
  | nil => exact List.Pairwise.nil
  | cons e t ih =>
      obtain ⟨he, ht⟩ := List.pairwise_cons.mp hsort
      refine List.pairwise_cons.mpr ⟨?_, ih (i + 1) ht⟩
      intro b hb
      obtain ⟨a, ha, hs, k, hk, hp⟩ := assignPointsFrom_mem n (i + 1) t b hb
      constructor
      · show b.steps ≤ e.steps
        rw [hs]
        exact he a ha
      · show b.points < (n : Int) - (i : Int)
        rw [hp]
        have hik : (i : Int) < (k : Int) := by exact_mod_cast hk
        omega

/-! ## Scoring engine claims -/

/-- C1: after recalculation of a week with N ≥ 1 entries, position j of the
store-ordered (steps descending) entry list receives rank j + 1 and points
N - j, the multiset of points is exactly one each of 1..N, steps are left in
place, and a strictly larger step count always receives strictly more
points (so points never increase as steps decrease, ties unconstrained). -/
theorem c1_recalculate_points (entries fetched : List EntryRow)
    (hperm : fetched.Perm entries)
    (hsort : fetched.Pairwise (fun a b => b.steps ≤ a.steps))
    (hne : 1 ≤ entries.length) :
    ((recalcFetched fetched).map (fun e => e.points)).Perm
      ((List.range entries.length).map (fun j : Nat => (j : Int) + 1)) ∧
    (recalcFetched fetched).map (fun e => e.rank) =
      (List.range entries.length).map (fun j : Nat => (j : Int) + 1) ∧
    (recalcFetched fetched).map (fun e => e.points) =
      (List.range entries.length).map (fun j : Nat => (entries.length : Int) - (j : Int)) ∧
    (recalcFetched fetched).map (fun e => e.steps) = fetched.map (fun e => e.steps) ∧
    (∀ a ∈ recalcFetched fetched, ∀ b ∈ recalcFetched fetched,
      a.steps < b.steps → a.points < b.points) := by
  have hlen : fetched.length = entries.length := hperm.length_eq
  have hfe : fetched ≠ [] := by
    intro hc
    rw [hc] at hlen
    simp at hlen
    omega
  have hrw := recalcFetched_of_ne_nil fetched hfe
  have hpts : (recalcFetched fetched).map (fun e => e.points) =
      (List.range entries.length).map (fun j : Nat => (entries.length : Int) - (j : Int)) := by
    rw [hrw, assignPointsFrom_map_points, hlen]
    refine List.map_congr_left ?_
    intro j hj
    push_cast
    ring
  have hrnk : (recalcFetched fetched).map (fun e => e.rank) =
      (List.range entries.length).map (fun j : Nat => (j : Int) + 1) := by
    rw [hrw, assignPointsFrom_map_rank, hlen]
    refine List.map_congr_left ?_
    intro j hj
    push_cast
    ring
  have hstp : (recalcFetched fetched).map (fun e => e.steps) =
      fetched.map (fun e => e.steps) := by
    rw [hrw]
    have h := assignPointsFrom_map_frame fetched.length 0 fetched
    have h2 := congrArg (List.map (fun t : Nat × Nat × Nat × Int × Rat × Nat × Nat =>
      t.2.2.2.1)) h
    simpa [List.map_map, Function.comp_def, entryFrame] using h2
  have houtlen : (recalcFetched fetched).length = entries.length := by
    rw [hrw, assignPointsFrom_length, hlen]
  refine ⟨?_, hrnk, hpts, hstp, ?_⟩
  · rw [hpts]
    exact neg_range_perm entries.length
  · intro a ha b hb hab
    rw [hrw] at ha hb
    have hpw := assignPointsFrom_pairwise fetched.length 0 fetched hsort
    by_cases heq : a = b
    · subst heq
      exact absurd hab (lt_irrefl _)
    · have hpw2 : (assignPointsFrom fetched.length 0 fetched).Pairwise
          (fun x y : EntryRow =>
            (x.steps < y.steps → x.points < y.points) ∧
            (y.steps < x.steps → y.points < x.points)) := by
        refine hpw.imp ?_
        intro x y hxy
        exact ⟨fun hlt => absurd hlt (by omega), fun _ => hxy.2⟩
      have hsym : Symmetric (fun x y : EntryRow =>
          (x.steps < y.steps → x.points < y.points) ∧
          (y.steps < x.steps → y.points < x.points)) := by
        intro x y hxy
        exact ⟨hxy.2, hxy.1⟩
      exact (List.Pairwise.forall hsym hpw2 ha hb heq).1 hab

/-- Closed instance of the hypotheses of c1_recalculate_points on a
two-entry week (fetched in descending step order, a genuine permutation of
the stored order), with its conclusion there. -/
theorem c1_recalculate_points_witness :
    (([⟨1, 9, 5, 800, 2, 0, 0, 0, 0⟩, ⟨2, 9, 6, 500, 1, 0, 0, 0, 0⟩] : List EntryRow).Perm
        [⟨2, 9, 6, 500, 1, 0, 0, 0, 0⟩, ⟨1, 9, 5, 800, 2, 0, 0, 0, 0⟩] ∧
      ([⟨1, 9, 5, 800, 2, 0, 0, 0, 0⟩, ⟨2, 9, 6, 500, 1, 0, 0, 0, 0⟩] : List EntryRow).Pairwise
        (fun a b => b.steps ≤ a.steps) ∧
      1 ≤ ([⟨2, 9, 6, 500, 1, 0, 0, 0, 0⟩, ⟨1, 9, 5, 800, 2, 0, 0, 0, 0⟩] : List EntryRow).length) ∧
    (((recalcFetched [⟨1, 9, 5, 800, 2, 0, 0, 0, 0⟩, ⟨2, 9, 6, 500, 1, 0, 0, 0, 0⟩]).map
        (fun e => e.points)).Perm
      ((List.range ([⟨2, 9, 6, 500, 1, 0, 0, 0, 0⟩,
          ⟨1, 9, 5, 800, 2, 0, 0, 0, 0⟩] : List EntryRow).length).map
        (fun j : Nat => (j : Int) + 1)) ∧
    (recalcFetched [⟨1, 9, 5, 800, 2, 0, 0, 0, 0⟩, ⟨2, 9, 6, 500, 1, 0, 0, 0, 0⟩]).map
        (fun e => e.rank) =
      (List.range ([⟨2, 9, 6, 500, 1, 0, 0, 0, 0⟩,
          ⟨1, 9, 5, 800, 2, 0, 0, 0, 0⟩] : List EntryRow).length).map (fun j : Nat => (j : Int) + 1) ∧
    (recalcFetched [⟨1, 9, 5, 800, 2, 0, 0, 0, 0⟩, ⟨2, 9, 6, 500, 1, 0, 0, 0, 0⟩]).map
        (fun e => e.points) =
      (List.range ([⟨2, 9, 6, 500, 1, 0, 0, 0, 0⟩,
          ⟨1, 9, 5, 800, 2, 0, 0, 0, 0⟩] : List EntryRow).length).map
        (fun j : Nat => ((([⟨2, 9, 6, 500, 1, 0, 0, 0, 0⟩,
          ⟨1, 9, 5, 800, 2, 0, 0, 0, 0⟩] : List EntryRow).length : Int)) - (j : Int)) ∧
    (recalcFetched [⟨1, 9, 5, 800, 2, 0, 0, 0, 0⟩, ⟨2, 9, 6, 500, 1, 0, 0, 0, 0⟩]).map
        (fun e => e.steps) =
      ([⟨1, 9, 5, 800, 2, 0, 0, 0, 0⟩, ⟨2, 9, 6, 500, 1, 0, 0, 0, 0⟩] : List EntryRow).map
        (fun e => e.steps) ∧
    (∀ a ∈ recalcFetched [⟨1, 9, 5, 800, 2, 0, 0, 0, 0⟩, ⟨2, 9, 6, 500, 1, 0, 0, 0, 0⟩],
      ∀ b ∈ recalcFetched [⟨1, 9, 5, 800, 2, 0, 0, 0, 0⟩, ⟨2, 9, 6, 500, 1, 0, 0, 0, 0⟩],
      a.steps < b.steps → a.points < b.points)) :=
  ⟨⟨by decide, by decide, by decide⟩,
    c1_recalculate_points
      [⟨2, 9, 6, 500, 1, 0, 0, 0, 0⟩, ⟨1, 9, 5, 800, 2, 0, 0, 0, 0⟩]
      [⟨1, 9, 5, 800, 2, 0, 0, 0, 0⟩, ⟨2, 9, 6, 500, 1, 0, 0, 0, 0⟩]
      (by decide) (by decide) (by decide)⟩

/-! ## Recalculation frame claim -/

theorem applyPointUpdates_map_frame (us : List (Nat × Int × Int)) (es : List EntryRow) :
    (applyPointUpdates us es).map entryFrame = es.map entryFrame := by
  induction us generalizing es with
  | nil => rfl
  | cons u ut ih =>
      have h1 : applyPointUpdates (u :: ut) es = applyPointUpdates ut
          (es.map (fun e => if e.id = u.1 then { e with points := u.2.1, rank := u.2.2 } else e)) :=
        rfl
      rw [h1, ih, List.map_map]
      refine List.map_congr_left ?_
      intro e he
      by_cases hc : e.id = u.1 <;> simp [Function.comp_def, hc, entryFrame]

/-- C10: a week recalculation rewrites only points and rank: every stored
entry keeps its id, challenge, participant, steps, distance and creation
data positionally, and no leaderboard entry is inserted or deleted. -/
theorem c10_recalc_frame (w : Nat) (db : DB) :
    (recalculatePointsForWeek w db).entries.map entryFrame = db.entries.map entryFrame ∧
    (recalculatePointsForWeek w db).entries.length = db.entries.length := by
  have hmain : (recalculatePointsForWeek w db).entries.map entryFrame =
      db.entries.map entryFrame := by
    simp only [recalculatePointsForWeek]
    split
    · rfl
    · exact applyPointUpdates_map_frame _ _
  refine ⟨hmain, ?_⟩
  have h := congrArg List.length hmain
  simpa using h

/-! ## Win-streak claims -/

theorem leadingRun_le_longestRun (l : List Bool) : leadingRun l ≤ longestRun l := by
  cases l with
  | nil => exact le_refl _
  | cons b t =>
      show leadingRun (b :: t) ≤ max (leadingRun (b :: t)) (longestRun t)
      exact le_max_left _ _

theorem foldl_streak (l : List Bool) (c m : Nat) :
    (l.foldl (fun acc b => if b then (acc.1 + 1, max acc.2 (acc.1 + 1)) else (0, acc.2))
      (c, m)).2 =
      max m (max (if leadingRun l = 0 then 0 else c + leadingRun l) (longestRun l)) := by
  induction l generalizing c m with
  | nil => simp [leadingRun, longestRun]
  | cons b t ih =>
      have hle := leadingRun_le_longestRun t
      cases b
      · rw [List.foldl_cons]
        show (t.foldl _ ((0 : Nat), m)).2 = _
        have h2 : longestRun (false :: t) = max (leadingRun (false :: t)) (longestRun t) := rfl
        rw [ih, h2]
        have h1 : leadingRun (false :: t) = 0 := rfl
        rw [h1]
        by_cases h0 : leadingRun t = 0
        · rw [if_pos h0, if_pos rfl]
          omega
        · rw [if_neg h0, if_pos rfl]
          omega
      · rw [List.foldl_cons]
        show (t.foldl _ (c + 1, max m (c + 1))).2 = _
        have h2 : longestRun (true :: t) = max (leadingRun (true :: t)) (longestRun t) := rfl
        rw [ih, h2]
        have h1 : leadingRun (true :: t) = leadingRun t + 1 := rfl
        rw [h1]
        by_cases h0 : leadingRun t = 0
        · rw [if_pos h0, if_neg (by omega)]
          rw [h0]
          omega
        · rw [if_neg h0, if_neg (by omega)]
          omega

/-- C7 counterexample: one participant wins the only two recorded dates,
day 0 and day 2, with no data on day 1; the loop reports a streak of 2
(consecutive recorded dates), while the longest run of consecutive
CALENDAR dates won is 1 — a calendar gap does not break the code's
streak. -/
theorem c7_streak_counterexample :
    maxWinStreak [⟨0, "A", 100⟩, ⟨2, "A", 100⟩] "A" = 2 ∧
    calendarWinStreak [⟨0, "A", 100⟩, ⟨2, "A", 100⟩] "A" = 1 ∧
    maxWinStreak [⟨0, "A", 100⟩, ⟨2, "A", 100⟩] "A" ≠
      calendarWinStreak [⟨0, "A", 100⟩, ⟨2, "A", 100⟩] "A" := by
  decide

/-- C7 amended: the longest win streak reported for a participant equals
the length of the longest run of consecutive entries in the sorted list of
RECORDED dates on which that participant was the daily winner; days with no
recorded data are simply absent from that list, so a calendar gap does not
break a streak. -/
theorem c7_win_streak_amended (rows : List DailyDataRow) (name : String) :
    maxWinStreak rows name = longestRun (winFlags rows name) := by
  have h : maxWinStreak rows name = ((winFlags rows name).foldl
      (fun acc b => if b then (acc.1 + 1, max acc.2 (acc.1 + 1)) else (0, acc.2))
      ((0 : Nat), (0 : Nat))).2 := by
    unfold maxWinStreak winFlags
    rw [List.foldl_map]
  rw [h, foldl_streak]
  have hle := leadingRun_le_longestRun (winFlags rows name)
  by_cases h0 : leadingRun (winFlags rows name) = 0
  · rw [if_pos h0]
    omega
  · rw [if_neg h0]
    omega

/-! ## Participant deletion: store-level lemmas -/

theorem insertEntryDesc_perm (e : EntryRow) (l : List EntryRow) :
    (insertEntryDesc e l).Perm (e :: l) := by
  induction l with
  | nil => exact List.Perm.refl _
  | cons a t ih =>
      unfold insertEntryDesc
      split
      · exact List.Perm.trans (List.Perm.cons a ih) (List.Perm.swap e a t)
      · exact List.Perm.refl _

theorem sortEntriesDesc_perm (l : List EntryRow) : (sortEntriesDesc l).Perm l := by
  induction l with
  | nil => exact List.Perm.refl _
  | cons a t ih =>
      unfold sortEntriesDesc
      exact List.Perm.trans (insertEntryDesc_perm a (sortEntriesDesc t)) (List.Perm.cons a ih)

theorem jsSetDedupAux_spec (l : List Nat) : ∀ seen : List Nat,
    (jsSetDedupAux seen l).Nodup ∧ (∀ a, a ∈ jsSetDedupAux seen l ↔ a ∈ l ∧ a ∉ seen) := by
  induction l with
  | nil =>
      intro seen
      exact ⟨List.nodup_nil, by simp [jsSetDedupAux]⟩
  | cons b t ih =>
      intro seen
      unfold jsSetDedupAux
      split
      · rename_i hb
        obtain ⟨ihn, ihm⟩ := ih seen
        refine ⟨ihn, ?_⟩
        intro a
        rw [ihm a]
        simp only [List.mem_cons]
        constructor
        · rintro ⟨h1, h2⟩
          exact ⟨Or.inr h1, h2⟩
        · rintro ⟨h1 | h1, h2⟩
          · subst h1; exact absurd hb h2
          · exact ⟨h1, h2⟩
      · rename_i hb
        obtain ⟨ihn, ihm⟩ := ih (b :: seen)
        constructor
        · refine List.nodup_cons.mpr ⟨?_, ihn⟩
          intro hc
          exact ((ihm b).mp hc).2 (by simp)
        · intro a
          simp only [List.mem_cons]
          rw [ihm a]
          simp only [List.mem_cons, not_or]
          constructor
          · rintro (rfl | ⟨h1, h2, h3⟩)
            · exact ⟨Or.inl rfl, hb⟩
            · exact ⟨Or.inr h1, h3⟩
          · rintro ⟨h1 | h1, h2⟩
            · exact Or.inl h1
            · by_cases hab : a = b
              · exact Or.inl hab
              · exact Or.inr ⟨h1, hab, h2⟩

theorem jsSetDedup_nodup (l : List Nat) : (jsSetDedup l).Nodup :=
  (jsSetDedupAux_spec l []).1

theorem jsSetDedup_mem (l : List Nat) (a : Nat) : a ∈ jsSetDedup l ↔ a ∈ l := by
  rw [jsSetDedup, (jsSetDedupAux_spec l []).2 a]
  simp

theorem pointUpdatesFrom_map_fst (n i : Nat) (l : List EntryRow) :
    (pointUpdatesFrom n i l).map (fun u => u.1) = l.map (fun e => e.id) := by
  induction l generalizing i with
  | nil => rfl
  | cons e t ih => simp [pointUpdatesFrom, ih]

theorem applyPointUpdates_map_proj {α : Type} (f : EntryRow → α)
    (hf : ∀ (e : EntryRow) (p r : Int), f { e with points := p, rank := r } = f e)
    (us : List (Nat × Int × Int)) (es : List EntryRow) :
    (applyPointUpdates us es).map f = es.map f := by
  induction us generalizing es with
  | nil => rfl
  | cons u ut ih =>
      have h1 : applyPointUpdates (u :: ut) es = applyPointUpdates ut
          (es.map (fun e => if e.id = u.1 then { e with points := u.2.1, rank := u.2.2 } else e)) :=
        rfl
      rw [h1, ih, List.map_map]
      refine List.map_congr_left ?_
      intro e he
      simp only [Function.comp_def]
      by_cases hc : e.id = u.1
      · rw [if_pos hc]
        exact hf e u.2.1 u.2.2
      · rw [if_neg hc]

theorem applyPointUpdates_eq_find (us : List (Nat × Int × Int)) (es : List EntryRow)
    (hnd : (us.map (fun u => u.1)).Nodup) :
    applyPointUpdates us es = es.map (fun e =>
      match us.find? (fun u => u.1 == e.id) with
      | some u => { e with points := u.2.1, rank := u.2.2 }
      | none => e) := by
  induction us generalizing es with
  | nil => exact (List.map_id es).symm
  | cons u ut ih =>
      rw [List.map_cons] at hnd
      obtain ⟨hu, hnd2⟩ := List.nodup_cons.mp hnd
      have h1 : applyPointUpdates (u :: ut) es = applyPointUpdates ut
          (es.map (fun e => if e.id = u.1 then { e with points := u.2.1, rank := u.2.2 } else e)) :=
        rfl
      rw [h1, ih _ hnd2, List.map_map]
      refine List.map_congr_left ?_
      intro e he
      simp only [Function.comp_def]
      by_cases hc : e.id = u.1
      · rw [if_pos hc]
        have hfind : ut.find? (fun v =>
            v.1 == ({ e with points := u.2.1, rank := u.2.2 } : EntryRow).id) = none := by
          refine List.find?_eq_none.mpr ?_
          intro v hv
          show ¬ (v.1 == e.id) = true
          simp only [beq_iff_eq]
          intro hveq
          refine hu ?_
          rw [← hc, ← hveq]
          exact List.mem_map_of_mem _ hv
        rw [hfind]
        have hhead : List.find? (fun v => v.1 == e.id) (u :: ut) = some u :=
          List.find?_cons_of_pos _ (by simp [hc])
        rw [hhead]
      · rw [if_neg hc]
        have hhead : List.find? (fun v => v.1 == e.id) (u :: ut) =
            ut.find? (fun v => v.1 == e.id) := by
          refine List.find?_cons_of_neg _ ?_
          simp only [beq_iff_eq]
          exact fun hco => hc hco.symm
        rw [hhead]

theorem map_find_pointUpdates (n i : Nat) (l : List EntryRow)
    (hnd : (l.map (fun e => e.id)).Nodup) :
    l.map (fun e => match (pointUpdatesFrom n i l).find? (fun u => u.1 == e.id) with
      | some u => { e with points := u.2.1, rank := u.2.2 }
      | none => e) = assignPointsFrom n i l := by
  induction l generalizing i with
  | nil => rfl
  | cons e t ih =>
      rw [List.map_cons] at hnd
      obtain ⟨he, hnd2⟩ := List.nodup_cons.mp hnd
      rw [List.map_cons]
      show _ :: _ = { e with points := (n : Int) - (i : Int), rank := (i : Int) + 1 } ::
        assignPointsFrom n (i + 1) t
      refine List.cons_eq_cons.mpr ⟨?_, ?_⟩
      · have hhead : (pointUpdatesFrom n i (e :: t)).find? (fun u => u.1 == e.id) =
            some (e.id, (n : Int) - (i : Int), (i : Int) + 1) := by
          show ((e.id, (n : Int) - (i : Int), (i : Int) + 1) ::
            pointUpdatesFrom n (i + 1) t).find? _ = _
          exact List.find?_cons_of_pos _ (by simp)
        rw [hhead]
      · have hstep : ∀ x ∈ t,
            (match (pointUpdatesFrom n i (e :: t)).find? (fun u => u.1 == x.id) with
              | some u => { x with points := u.2.1, rank := u.2.2 }
              | none => x) =
            (match (pointUpdatesFrom n (i + 1) t).find? (fun u => u.1 == x.id) with
              | some u => { x with points := u.2.1, rank := u.2.2 }
              | none => x) := by
          intro x hx
          have hneg : (pointUpdatesFrom n i (e :: t)).find? (fun u => u.1 == x.id) =
              (pointUpdatesFrom n (i + 1) t).find? (fun u => u.1 == x.id) := by
            show ((e.id, (n : Int) - (i : Int), (i : Int) + 1) ::
              pointUpdatesFrom n (i + 1) t).find? _ = _
            refine List.find?_cons_of_neg _ ?_
            simp only [beq_iff_eq]
            intro hco
            refine he ?_
            rw [hco]
            exact List.mem_map_of_mem _ hx
          rw [hneg]
        rw [List.map_congr_left hstep, ih _ hnd2]

theorem pointUpdates_map_fst (l : List EntryRow) :
    (pointUpdates l).map (fun u => u.1) = l.map (fun e => e.id) :=
  pointUpdatesFrom_map_fst l.length 0 l

theorem fetched_ids_nodup (w : Nat) (db : DB)
    (hnd : (db.entries.map (fun e => e.id)).Nodup) :
    ((sortEntriesDesc (db.entries.filter (fun e => e.challenge_id == w))).map
      (fun e => e.id)).Nodup := by
  have hperm := (sortEntriesDesc_perm (db.entries.filter
    (fun e => e.challenge_id == w))).map (fun e => e.id)
  refine hperm.nodup_iff.mpr ?_
  refine List.Nodup.sublist ?_ hnd
  exact (List.filter_sublist _).map _

theorem pointUpdates_fst_nodup (w : Nat) (db : DB)
    (hnd : (db.entries.map (fun e => e.id)).Nodup) :
    ((pointUpdates (sortEntriesDesc (db.entries.filter
      (fun e => e.challenge_id == w)))).map (fun u => u.1)).Nodup := by
  rw [pointUpdates_map_fst]
  exact fetched_ids_nodup w db hnd

theorem find_pointUpdates_none (w : Nat) (db : DB)
    (hnd : (db.entries.map (fun e => e.id)).Nodup)
    (e : EntryRow) (he : e ∈ db.entries) (hew : ¬ e.challenge_id = w) :
    (pointUpdates (sortEntriesDesc (db.entries.filter
      (fun e => e.challenge_id == w)))).find? (fun u => u.1 == e.id) = none := by
  refine List.find?_eq_none.mpr ?_
  intro u hu
  simp only [beq_iff_eq]
  intro hue
  have h1 : u.1 ∈ (pointUpdates (sortEntriesDesc (db.entries.filter
      (fun e => e.challenge_id == w)))).map (fun u => u.1) :=
    List.mem_map_of_mem _ hu
  rw [pointUpdates_map_fst] at h1
  have h2 : u.1 ∈ (db.entries.filter (fun e => e.challenge_id == w)).map (fun e => e.id) :=
    ((sortEntriesDesc_perm _).map _).mem_iff.mp h1
  obtain ⟨x, hx, hxid⟩ := List.mem_map.mp h2
  have hxe : x ∈ db.entries := (List.mem_filter.mp hx).1
  have hxw : x.challenge_id = w := by simpa using (List.mem_filter.mp hx).2
  have hxeq : x = e := List.inj_on_of_nodup_map hnd hxe he (by rw [hxid, hue])
  rw [hxeq] at hxw
  exact hew hxw

theorem recalc_empty (w : Nat) (db : DB)
    (he : (sortEntriesDesc (db.entries.filter (fun e => e.challenge_id == w))).isEmpty = true) :
    recalculatePointsForWeek w db = db := by
  simp only [recalculatePointsForWeek]
  rw [if_pos he]

theorem recalc_entries_eq (w : Nat) (db : DB)
    (hnd : (db.entries.map (fun e => e.id)).Nodup)
    (hne : ¬ (sortEntriesDesc (db.entries.filter
      (fun e => e.challenge_id == w))).isEmpty = true) :
    (recalculatePointsForWeek w db).entries = db.entries.map (fun e =>
      match (pointUpdates (sortEntriesDesc (db.entries.filter
        (fun e => e.challenge_id == w)))).find? (fun u => u.1 == e.id) with
      | some u => { e with points := u.2.1, rank := u.2.2 }
      | none => e) := by
  simp only [recalculatePointsForWeek]
  rw [if_neg hne]
  exact applyPointUpdates_eq_find _ _ (pointUpdates_fst_nodup w db hnd)

theorem recalc_filter_other (w w2 : Nat) (db : DB) (hne : w2 ≠ w)
    (hnd : (db.entries.map (fun e => e.id)).Nodup) :
    (recalculatePointsForWeek w db).entries.filter (fun e => e.challenge_id == w2) =
      db.entries.filter (fun e => e.challenge_id == w2) := by
  by_cases hem : (sortEntriesDesc (db.entries.filter
      (fun e => e.challenge_id == w))).isEmpty = true
  · rw [recalc_empty w db hem]
  · rw [recalc_entries_eq w db hnd hem, List.filter_map]
    have hcong : db.entries.filter ((fun e : EntryRow => e.challenge_id == w2) ∘
        (fun e : EntryRow =>
          match (pointUpdates (sortEntriesDesc (db.entries.filter
            (fun e => e.challenge_id == w)))).find? (fun u => u.1 == e.id) with
          | some u => { e with points := u.2.1, rank := u.2.2 }
          | none => e)) = db.entries.filter (fun e : EntryRow => e.challenge_id == w2) := by
      refine List.filter_congr ?_
      intro e he
      simp only [Function.comp_def]
      cases hfind : (pointUpdates (sortEntriesDesc (db.entries.filter
          (fun e => e.challenge_id == w)))).find? (fun u => u.1 == e.id) with
      | none => rfl
      | some u => rfl
    rw [hcong]
    have hid : ∀ e ∈ db.entries.filter (fun e : EntryRow => e.challenge_id == w2),
        (match (pointUpdates (sortEntriesDesc (db.entries.filter
          (fun e => e.challenge_id == w)))).find? (fun u => u.1 == e.id) with
        | some u => ({ e with points := u.2.1, rank := u.2.2 } : EntryRow)
        | none => e) = e := by
      intro e he
      have hee : e ∈ db.entries := (List.mem_filter.mp he).1
      have hew : e.challenge_id = w2 := by simpa using (List.mem_filter.mp he).2
      rw [find_pointUpdates_none w db hnd e hee (by rw [hew]; exact hne)]
    rw [List.map_congr_left hid]
    simp

theorem recalc_filter_week (w : Nat) (db : DB)
    (hnd : (db.entries.map (fun e => e.id)).Nodup) :
    ((recalculatePointsForWeek w db).entries.filter (fun e => e.challenge_id == w)).Perm
      (assignPointsFrom
        (sortEntriesDesc (db.entries.filter (fun e => e.challenge_id == w))).length 0
        (sortEntriesDesc (db.entries.filter (fun e => e.challenge_id == w)))) := by
  by_cases hem : (sortEntriesDesc (db.entries.filter
      (fun e => e.challenge_id == w))).isEmpty = true
  · rw [recalc_empty w db hem]
    have hs : sortEntriesDesc (db.entries.filter (fun e => e.challenge_id == w)) = [] := by
      simpa [List.isEmpty_iff] using hem
    have hf : db.entries.filter (fun e => e.challenge_id == w) = [] := by
      have hp := sortEntriesDesc_perm (db.entries.filter (fun e => e.challenge_id == w))
      rw [hs] at hp
      exact hp.symm.eq_nil
    rw [hf]
    exact List.Perm.refl _
  · rw [recalc_entries_eq w db hnd hem, List.filter_map]
    have hcong : db.entries.filter ((fun e : EntryRow => e.challenge_id == w) ∘
        (fun e : EntryRow =>
          match (pointUpdates (sortEntriesDesc (db.entries.filter
            (fun e => e.challenge_id == w)))).find? (fun u => u.1 == e.id) with
          | some u => { e with points := u.2.1, rank := u.2.2 }
          | none => e)) = db.entries.filter (fun e : EntryRow => e.challenge_id == w) := by
      refine List.filter_congr ?_
      intro e he
      simp only [Function.comp_def]
      cases hfind : (pointUpdates (sortEntriesDesc (db.entries.filter
          (fun e => e.challenge_id == w)))).find? (fun u => u.1 == e.id) with
      | none => rfl
      | some u => rfl
    rw [hcong]
    refine List.Perm.trans (List.Perm.map _ (sortEntriesDesc_perm _).symm) ?_
    rw [show pointUpdates (sortEntriesDesc (db.entries.filter
      (fun e => e.challenge_id == w))) = pointUpdatesFrom
      (sortEntriesDesc (db.entries.filter (fun e => e.challenge_id == w))).length 0
      (sortEntriesDesc (db.entries.filter (fun e => e.challenge_id == w))) from rfl]
    rw [map_find_pointUpdates _ _ _ (fetched_ids_nodup w db hnd)]

theorem recalc_daily_participants (w : Nat) (db : DB) :
    (recalculatePointsForWeek w db).daily_steps = db.daily_steps ∧
    (recalculatePointsForWeek w db).participants = db.participants := by
  simp only [recalculatePointsForWeek]
  split <;> exact ⟨rfl, rfl⟩

theorem recalc_map_id (w : Nat) (db : DB) :
    (recalculatePointsForWeek w db).entries.map (fun e => e.id) =
      db.entries.map (fun e => e.id) := by
  simp only [recalculatePointsForWeek]
  split
  · rfl
  · exact applyPointUpdates_map_proj (fun e => e.id) (fun e p r => rfl) _ _

theorem recalc_map_participant (w : Nat) (db : DB) :
    (recalculatePointsForWeek w db).entries.map (fun e => e.participant_id) =
      db.entries.map (fun e => e.participant_id) := by
  simp only [recalculatePointsForWeek]
  split
  · rfl
  · exact applyPointUpdates_map_proj (fun e => e.participant_id) (fun e p r => rfl) _ _

theorem foldRecalc_daily_participants (weeks : List Nat) : ∀ db : DB,
    ((weeks.foldl (fun d u => recalculatePointsForWeek u d) db).daily_steps = db.daily_steps ∧
     (weeks.foldl (fun d u => recalculatePointsForWeek u d) db).participants =
       db.participants) := by
  induction weeks with
  | nil => exact fun db => ⟨rfl, rfl⟩
  | cons u t ih =>
      intro db
      rw [List.foldl_cons]
      obtain ⟨h1, h2⟩ := ih (recalculatePointsForWeek u db)
      obtain ⟨h3, h4⟩ := recalc_daily_participants u db
      exact ⟨h1.trans h3, h2.trans h4⟩

theorem foldRecalc_map_participant (weeks : List Nat) : ∀ db : DB,
    (weeks.foldl (fun d u => recalculatePointsForWeek u d) db).entries.map
      (fun e => e.participant_id) = db.entries.map (fun e => e.participant_id) := by
  induction weeks with
  | nil => exact fun db => rfl
  | cons u t ih =>
      intro db
      rw [List.foldl_cons, ih (recalculatePointsForWeek u db), recalc_map_participant]

theorem foldRecalc_filter_other (weeks : List Nat) (w : Nat) : ∀ db : DB,
    w ∉ weeks → (db.entries.map (fun e => e.id)).Nodup →
    (weeks.foldl (fun d u => recalculatePointsForWeek u d) db).entries.filter
      (fun e => e.challenge_id == w) = db.entries.filter (fun e => e.challenge_id == w) := by
  induction weeks with
  | nil => exact fun db _ _ => rfl
  | cons u t ih =>
      intro db hw hnd
      rw [List.foldl_cons]
      have hnd2 : ((recalculatePointsForWeek u db).entries.map (fun e => e.id)).Nodup := by
        rw [recalc_map_id]
        exact hnd
      rw [ih (recalculatePointsForWeek u db) (fun hc => hw (List.mem_cons_of_mem _ hc)) hnd2]
      exact recalc_filter_other u w db
        (fun hc => hw (by rw [hc]; exact List.mem_cons_self u t)) hnd

theorem foldRecalc_filter_week (weeks : List Nat) (w : Nat) : ∀ db : DB,
    w ∈ weeks → weeks.Nodup → (db.entries.map (fun e => e.id)).Nodup →
    ((weeks.foldl (fun d u => recalculatePointsForWeek u d) db).entries.filter
      (fun e => e.challenge_id == w)).Perm
      (assignPointsFrom
        (sortEntriesDesc (db.entries.filter (fun e => e.challenge_id == w))).length 0
        (sortEntriesDesc (db.entries.filter (fun e => e.challenge_id == w)))) := by
  induction weeks with
  | nil =>
      intro db hmem _ _
      exact absurd hmem (by simp)
  | cons u t ih =>
      intro db hmem hnodup hnd
      rw [List.foldl_cons]
      obtain ⟨hu, hnodup2⟩ := List.nodup_cons.mp hnodup
      have hnd2 : ((recalculatePointsForWeek u db).entries.map (fun e => e.id)).Nodup := by
        rw [recalc_map_id]
        exact hnd
      rcases List.mem_cons.mp hmem with rfl | hmem2
      · rw [foldRecalc_filter_other t w (recalculatePointsForWeek w db) hu hnd2]
        exact recalc_filter_week w db hnd
      · have hwu : w ≠ u := fun hc => hu (hc ▸ hmem2)
        have h2 := ih (recalculatePointsForWeek u db) hmem2 hnodup2 hnd2
        rw [recalc_filter_other u w db hwu hnd] at h2
        exact h2

/-- C8: deleting a participant that is not in the given group fails with
the participant-not-found error (nothing is touched); otherwise the call
succeeds, every daily_steps row and leaderboard entry of the participant is
removed along with the participant row, the returned affectedWeeks are
exactly the distinct weeks the participant had entries in, and each such
week has been fully repointed: the remaining M entries of that week carry
the points multiset 1..M. -/
theorem c8_delete_participant (pid gid : Nat) (db : DB)
    (hndE : (db.entries.map (fun e => e.id)).Nodup)
    (hndP : (db.participants.map (fun p => p.id)).Nodup) :
    ((¬ ∃ p ∈ db.participants, p.id = pid ∧ p.group_id = gid) →
      deleteParticipant pid gid db = .error "Participant not found in this group") ∧
    ((∃ p ∈ db.participants, p.id = pid ∧ p.group_id = gid) →
      ∃ db2 weeks, deleteParticipant pid gid db = .ok (db2, weeks) ∧
        weeks = jsSetDedup ((db.entries.filter
          (fun e => e.participant_id == pid)).map (fun e => e.challenge_id)) ∧
        db2.daily_steps = db.daily_steps.filter (fun r => !(r.participant_id == pid)) ∧
        db2.participants = db.participants.filter
          (fun p => !(p.id == pid && p.group_id == gid)) ∧
        (∀ e ∈ db2.entries, e.participant_id ≠ pid) ∧
        (∀ w ∈ weeks,
          ((db2.entries.filter (fun e => e.challenge_id == w)).map (fun e => e.points)).Perm
            ((List.range ((db.entries.filter (fun e =>
              !(e.participant_id == pid))).filter (fun e => e.challenge_id == w)).length).map
              (fun j : Nat => (j : Int) + 1)))) := by
  constructor
  · intro hno
    have hfilter : db.participants.filter (fun q => q.id == pid && q.group_id == gid) = [] := by
      rw [List.filter_eq_nil_iff]
      intro q hq
      simp only [Bool.and_eq_true, beq_iff_eq]
      rintro ⟨h1, h2⟩
      exact hno ⟨q, hq, h1, h2⟩
    unfold deleteParticipant
    rw [hfilter]
    rfl
  · rintro ⟨p, hp, hpid, hgid⟩
    have hpf : p ∈ db.participants.filter (fun q => q.id == pid && q.group_id == gid) :=
      List.mem_filter.mpr ⟨hp, by simp [hpid, hgid]⟩
    have hmapids : (db.participants.filter (fun q => q.id == pid && q.group_id == gid)).map
        (fun q => q.id) = List.replicate ((db.participants.filter
          (fun q => q.id == pid && q.group_id == gid)).map (fun q => q.id)).length pid := by
      refine List.eq_replicate_of_mem ?_
      intro b hb
      obtain ⟨x, hx, hxb⟩ := List.mem_map.mp hb
      have hxx := (List.mem_filter.mp hx).2
      simp only [Bool.and_eq_true, beq_iff_eq] at hxx
      rw [← hxb]
      exact hxx.1
    have hnodupf : ((db.participants.filter (fun q => q.id == pid && q.group_id == gid)).map
        (fun q => q.id)).Nodup :=
      List.Nodup.sublist ((List.filter_sublist _).map _) hndP
    have hlen1 : (db.participants.filter (fun q => q.id == pid && q.group_id == gid)).length
        = 1 := by
      rw [hmapids] at hnodupf
      have hle := List.nodup_replicate.mp hnodupf
      have hge : 0 < (db.participants.filter
          (fun q => q.id == pid && q.group_id == gid)).length :=
        List.length_pos.mpr (List.ne_nil_of_mem hpf)
      simp only [List.length_map] at hle
      omega
    obtain ⟨x, hx⟩ := List.length_eq_one.mp hlen1
    refine ⟨((jsSetDedup ((db.entries.filter (fun e => e.participant_id == pid)).map
        (fun e => e.challenge_id))).foldl (fun d w => recalculatePointsForWeek w d)
        { db with
          daily_steps := db.daily_steps.filter (fun r => !(r.participant_id == pid)),
          entries := db.entries.filter (fun e => !(e.participant_id == pid)),
          participants := db.participants.filter
            (fun p => !(p.id == pid && p.group_id == gid)) }),
      (jsSetDedup ((db.entries.filter (fun e => e.participant_id == pid)).map
        (fun e => e.challenge_id))),
      ?_, rfl, ?_, ?_, ?_, ?_⟩
    · unfold deleteParticipant
      rw [hx]
      rfl
    · exact (foldRecalc_daily_participants _ _).1
    · exact (foldRecalc_daily_participants _ _).2
    · intro e he
      have hm := foldRecalc_map_participant (jsSetDedup ((db.entries.filter
        (fun e => e.participant_id == pid)).map (fun e => e.challenge_id)))
        { db with
          daily_steps := db.daily_steps.filter (fun r => !(r.participant_id == pid)),
          entries := db.entries.filter (fun e => !(e.participant_id == pid)),
          participants := db.participants.filter
            (fun p => !(p.id == pid && p.group_id == gid)) }
      have h1 : e.participant_id ∈ (((jsSetDedup ((db.entries.filter
          (fun e => e.participant_id == pid)).map (fun e => e.challenge_id))).foldl
            (fun d w => recalculatePointsForWeek w d)
            { db with
              daily_steps := db.daily_steps.filter (fun r => !(r.participant_id == pid)),
              entries := db.entries.filter (fun e => !(e.participant_id == pid)),
              participants := db.participants.filter
                (fun p => !(p.id == pid && p.group_id == gid)) }).entries).map
          (fun e => e.participant_id) :=
        List.mem_map_of_mem _ he
      rw [hm] at h1
      obtain ⟨y, hy, hyy⟩ := List.mem_map.mp h1
      have hyp := (List.mem_filter.mp hy).2
      simp only [Bool.not_eq_eq_eq_not, Bool.not_true, beq_eq_false_iff_ne] at hyp
      rw [← hyy]
      exact hyp
    · intro w hw
      have hndE3 : ((db.entries.filter (fun e => !(e.participant_id == pid))).map
          (fun e => e.id)).Nodup :=
        List.Nodup.sublist ((List.filter_sublist _).map _) hndE
      have hwn : (jsSetDedup ((db.entries.filter
          (fun e => e.participant_id == pid)).map (fun e => e.challenge_id))).Nodup :=
        jsSetDedup_nodup _
      have h3 := foldRecalc_filter_week
        (jsSetDedup ((db.entries.filter (fun e => e.participant_id == pid)).map
          (fun e => e.challenge_id))) w
        { db with
          daily_steps := db.daily_steps.filter (fun r => !(r.participant_id == pid)),
          entries := db.entries.filter (fun e => !(e.participant_id == pid)),
          participants := db.participants.filter
            (fun p => !(p.id == pid && p.group_id == gid)) }
        hw hwn hndE3
      have h4 := h3.map (fun e => e.points)
      rw [assignPointsFrom_map_points] at h4
      have h6 : (List.range (sortEntriesDesc ((db.entries.filter
          (fun e => !(e.participant_id == pid))).filter
            (fun e => e.challenge_id == w))).length).map
          (fun j : Nat => ((sortEntriesDesc ((db.entries.filter
            (fun e => !(e.participant_id == pid))).filter
              (fun e => e.challenge_id == w))).length : Int) - ((0 : Nat) : Int) - (j : Int)) =
          (List.range (sortEntriesDesc ((db.entries.filter
            (fun e => !(e.participant_id == pid))).filter
              (fun e => e.challenge_id == w))).length).map
          (fun j : Nat => ((sortEntriesDesc ((db.entries.filter
            (fun e => !(e.participant_id == pid))).filter
              (fun e => e.challenge_id == w))).length : Int) - (j : Int)) := by
        refine List.map_congr_left ?_
        intro j hj
        push_cast
        ring
      rw [h6] at h4
      have h7 := neg_range_perm (sortEntriesDesc ((db.entries.filter
        (fun e => !(e.participant_id == pid))).filter (fun e => e.challenge_id == w))).length
      have h8 := h4.trans h7
      have h5 : (sortEntriesDesc ((db.entries.filter
          (fun e => !(e.participant_id == pid))).filter
            (fun e => e.challenge_id == w))).length =
          ((db.entries.filter (fun e => !(e.participant_id == pid))).filter
            (fun e => e.challenge_id == w)).length :=
        (sortEntriesDesc_perm _).length_eq
      rw [h5] at h8
      exact h8

/-- Closed instance of the hypotheses of c8_delete_participant on the
concrete store dbW, with its conclusion there. -/
theorem c8_delete_participant_witness :
    ((dbW.entries.map (fun e => e.id)).Nodup ∧
      (dbW.participants.map (fun p => p.id)).Nodup) ∧
    (((¬ ∃ p ∈ dbW.participants, p.id = 0 ∧ p.group_id = 5) →
      deleteParticipant 0 5 dbW = .error "Participant not found in this group") ∧
    ((∃ p ∈ dbW.participants, p.id = 0 ∧ p.group_id = 5) →
      ∃ db2 weeks, deleteParticipant 0 5 dbW = .ok (db2, weeks) ∧
        weeks = jsSetDedup ((dbW.entries.filter
          (fun e => e.participant_id == 0)).map (fun e => e.challenge_id)) ∧
        db2.daily_steps = dbW.daily_steps.filter (fun r => !(r.participant_id == 0)) ∧
        db2.participants = dbW.participants.filter
          (fun p => !(p.id == 0 && p.group_id == 5)) ∧
        (∀ e ∈ db2.entries, e.participant_id ≠ 0) ∧
        (∀ w ∈ weeks,
          ((db2.entries.filter (fun e => e.challenge_id == w)).map (fun e => e.points)).Perm
            ((List.range ((dbW.entries.filter (fun e =>
              !(e.participant_id == 0))).filter (fun e => e.challenge_id == w)).length).map
              (fun j : Nat => (j : Int) + 1))))) :=
  ⟨⟨by decide, by decide⟩, c8_delete_participant 0 5 dbW (by decide) (by decide)⟩

/-! ## Upload idempotence: run-one helper lemmas -/

theorem insertRowDesc_perm (r : UploadRow) (l : List UploadRow) :
    (insertRowDesc r l).Perm (r :: l) := by
  induction l with
  | nil => exact List.Perm.refl _
  | cons a t ih =>
      unfold insertRowDesc
      split
      · exact List.Perm.trans (List.Perm.cons a ih) (List.Perm.swap r a t)
      · exact List.Perm.refl _

theorem sortRowsDesc_perm (l : List UploadRow) : (sortRowsDesc l).Perm l := by
  induction l with
  | nil => exact List.Perm.refl _
  | cons a t ih =>
      unfold sortRowsDesc
      exact List.Perm.trans (insertRowDesc_perm a (sortRowsDesc t)) (List.Perm.cons a ih)

theorem mkDailyRows_keys (ch pid now : Nat) (days : List UploadDay) : ∀ b : Nat,
    ∀ x ∈ mkDailyRows ch pid now b days, x.challenge_id = ch ∧ x.participant_id = pid := by
  induction days with
  | nil => intro b x hx; simp [mkDailyRows] at hx
  | cons d t ih =>
      intro b x hx
      rw [mkDailyRows] at hx
      rcases List.mem_cons.mp hx with h | h
      · subst h; exact ⟨rfl, rfl⟩
      · exact ih (b + 1) x h

theorem mkDailyRows_ids (ch pid now : Nat) (days : List UploadDay) : ∀ b : Nat,
    (mkDailyRows ch pid now b days).map (fun x => x.id) = List.range' b days.length := by
  induction days with
  | nil => intro b; simp [mkDailyRows]
  | cons d t ih =>
      intro b
      rw [mkDailyRows, List.map_cons, ih (b + 1)]
      rfl

theorem mkDailyRows_dates (ch pid now : Nat) (days : List UploadDay) : ∀ b : Nat,
    (mkDailyRows ch pid now b days).map (fun x => x.step_date) =
      days.map (fun d => d.date) := by
  induction days with
  | nil => intro b; simp [mkDailyRows]
  | cons d t ih =>
      intro b
      rw [mkDailyRows, List.map_cons, List.map_cons, ih (b + 1)]

theorem mkDailyRows_filter_nil (ch pid now ch2 pid2 : Nat) (dt : Date)
    (days : List UploadDay) (b : Nat) (hne : pid2 ≠ pid) :
    (mkDailyRows ch pid now b days).filter (fun x =>
      x.challenge_id == ch2 && x.participant_id == pid2 && x.step_date == dt) = [] := by
  refine List.filter_eq_nil_iff.mpr ?_
  intro x hx hcond
  simp only [Bool.and_eq_true, beq_iff_eq] at hcond
  have h1 := (mkDailyRows_keys ch pid now days b x hx).2
  have h2 := hcond.1.2
  omega

theorem mkDailyRows_filter_date (ch pid now : Nat) (d : UploadDay) :
    ∀ days : List UploadDay, (days.map (fun dd => dd.date)).Nodup → d ∈ days →
    ∀ b : Nat, ∃ rd : DailyRow,
      (mkDailyRows ch pid now b days).filter (fun x =>
        x.challenge_id == ch && x.participant_id == pid && x.step_date == d.date) = [rd] ∧
      rd.steps = d.steps ∧ rd.distance_mi = d.distance := by
  intro days
  induction days with
  | nil => intro _ hd; cases hd
  | cons a t ih =>
      intro hnd hd b
      rw [List.map_cons] at hnd
      rcases List.mem_cons.mp hd with h | h
      · subst h
        have htail : (mkDailyRows ch pid now (b + 1) t).filter (fun x =>
            x.challenge_id == ch && x.participant_id == pid && x.step_date == d.date) = [] := by
          refine List.filter_eq_nil_iff.mpr ?_
          intro x hx hcond
          simp only [Bool.and_eq_true, beq_iff_eq] at hcond
          have hxdate : x.step_date ∈ t.map (fun dd => dd.date) := by
            rw [← mkDailyRows_dates ch pid now t (b + 1)]
            exact List.mem_map.mpr ⟨x, hx, rfl⟩
          rw [hcond.2] at hxdate
          exact (List.nodup_cons.mp hnd).1 hxdate
        refine ⟨⟨b, ch, pid, d.date, d.steps, d.distance, now, now⟩, ?_, rfl, rfl⟩
        rw [mkDailyRows, List.filter_cons_of_pos (by simp), htail]
      · have hne : ¬ a.date = d.date := by
          intro he
          exact (List.nodup_cons.mp hnd).1 (he ▸ List.mem_map.mpr ⟨d, h, rfl⟩)
        obtain ⟨rd, hrd, hs, hdist⟩ := ih (List.nodup_cons.mp hnd).2 h (b + 1)
        refine ⟨rd, ?_, hs, hdist⟩
        rw [mkDailyRows, List.filter_cons_of_neg (by simp [hne]), hrd]

/-- The day-storage loop on a store holding no row of this participant
for any of the dates: every day inserts, ids sequential from nextId. -/
theorem processDays_insert (now ch pid : Nat) (days : List UploadDay) : ∀ db : DB,
    (days.map (fun d => d.date)).Nodup →
    (∀ x ∈ db.daily_steps, x.challenge_id = ch → x.participant_id = pid →
      x.step_date ∉ days.map (fun d => d.date)) →
    days.foldl (processDay now ch pid) db =
      { db with nextId := db.nextId + days.length,
                daily_steps := db.daily_steps ++ mkDailyRows ch pid now db.nextId days } := by
  induction days with
  | nil => intro db _ _; simp [mkDailyRows]
  | cons d t ih =>
      intro db hnd hmiss
      rw [List.map_cons] at hnd
      have hfilter : db.daily_steps.filter (fun r =>
          r.challenge_id == ch && r.participant_id == pid && r.step_date == d.date) = [] := by
        refine List.filter_eq_nil_iff.mpr ?_
        intro x hx hcond
        simp only [Bool.and_eq_true, beq_iff_eq] at hcond
        exact hmiss x hx hcond.1.1 hcond.1.2
          (by rw [List.map_cons, hcond.2]; exact List.mem_cons_self _ _)
      have hstep : processDay now ch pid db d =
          { db with nextId := db.nextId + 1,
                    daily_steps := db.daily_steps ++
                      [⟨db.nextId, ch, pid, d.date, d.steps, d.distance, now, now⟩] } := by
        unfold processDay
        rw [hfilter]
      rw [List.foldl_cons, hstep, ih]
      · show DB.mk _ _ _ _ _ = DB.mk _ _ _ _ _
        rw [mkDailyRows]
        congr 1
        · show db.nextId + 1 + t.length = db.nextId + (d :: t).length
          simp only [List.length_cons]
          omega
        · rw [List.append_assoc]
          rfl
      · exact (List.nodup_cons.mp hnd).2
      · intro x hx hch hpid
        rcases List.mem_append.mp hx with h | h
        · have := hmiss x h hch hpid
          rw [List.map_cons] at this
          exact fun hmem => this (List.mem_cons_of_mem _ hmem)
        · have hx2 := List.mem_singleton.mp h
          subst hx2
          exact (List.nodup_cons.mp hnd).1

/-- The per-row loop on a store that holds no participant of this name
and no daily row or entry of the fresh id: participant, daily rows and
entry are all freshly inserted with sequential ids. -/
theorem processRow_insert (g ch now total i : Nat) (r : UploadRow) (db : DB)
    (hp : db.participants.filter (fun p => p.group_id == g && p.name == r.name) = [])
    (hdates : (r.dailyData.map (fun d => d.date)).Nodup)
    (hdaily : ∀ x ∈ db.daily_steps, x.participant_id ≠ db.nextId)
    (hentry : ∀ e ∈ db.entries, e.participant_id ≠ db.nextId) :
    processRow g ch now total db (i, r) =
      { db with nextId := db.nextId + 1 + r.dailyData.length + 1,
                participants := db.participants ++ [mkParticipant g db.nextId r.name],
                daily_steps := db.daily_steps ++
                  mkDailyRows ch db.nextId now (db.nextId + 1) r.dailyData,
                entries := db.entries ++
                  [mkEntry ch db.nextId now (db.nextId + 1 + r.dailyData.length) r
                    ((total : Int) - (i : Int)) ((i : Int) + 1)] } := by
  have hd1 := processDays_insert now ch db.nextId r.dailyData
      { db with nextId := db.nextId + 1,
                participants := db.participants ++
                  [⟨db.nextId, g, r.name, mkUploadEmail r.name, true⟩] }
      hdates
      (by intro x hx hch hpid; exact absurd hpid (hdaily x hx))
  have hef : List.filter (fun e => e.challenge_id == ch && e.participant_id == db.nextId)
      db.entries = [] := by
    refine List.filter_eq_nil_iff.mpr ?_
    intro e he hcond
    simp only [Bool.and_eq_true, beq_iff_eq] at hcond
    exact hentry e he hcond.2
  have hsn : single? ([] : List ParticipantRow) = none := rfl
  have hse : single? ([] : List EntryRow) = none := rfl
  simp only [processRow]
  rw [hp, hsn]
  dsimp only
  rw [hd1]
  dsimp only
  rw [hef, hse]
  dsimp only
  show DB.mk _ _ _ _ _ = DB.mk _ _ _ _ _
  simp only [mkParticipant, mkEntry]

/-- The sorted-row loop on a store that holds none of the uploaded names
and whose stored ids are all below the id counter: the upload appends
exactly the closed-form fresh rows. -/
theorem run1_fold (g ch now total : Nat) (rows : List UploadRow) : ∀ (i : Nat) (db : DB),
    (∀ p ∈ db.participants, p.id < db.nextId) →
    (∀ x ∈ db.daily_steps, x.participant_id < db.nextId) →
    (∀ e ∈ db.entries, e.participant_id < db.nextId) →
    (∀ r ∈ rows, db.participants.filter
      (fun p => p.group_id == g && p.name == r.name) = []) →
    (rows.map (fun r => r.name)).Nodup →
    (∀ r ∈ rows, (r.dailyData.map (fun d => d.date)).Nodup) →
    (List.enumFrom i rows).foldl (processRow g ch now total) db =
      { db with nextId := (freshUpload g ch now total db.nextId i rows).2.2.2,
                participants := db.participants ++ (freshUpload g ch now total db.nextId i rows).1,
                daily_steps := db.daily_steps ++ (freshUpload g ch now total db.nextId i rows).2.1,
                entries := db.entries ++ (freshUpload g ch now total db.nextId i rows).2.2.1 } := by
  induction rows with
  | nil => intro i db _ _ _ _ _ _; simp [List.enumFrom, freshUpload]
  | cons r rest ih =>
      intro i db hA hB hC hD hnames hdates
      rw [List.map_cons] at hnames
      simp only [List.enumFrom]
      rw [List.foldl_cons]
      rw [processRow_insert g ch now total i r db (hD r (List.mem_cons_self _ _))
        (hdates r (List.mem_cons_self _ _))
        (fun x hx => Nat.ne_of_lt (hB x hx))
        (fun e he => Nat.ne_of_lt (hC e he))]
      rw [ih (i + 1) _ ?_ ?_ ?_ ?_ (List.nodup_cons.mp hnames).2
        (fun r2 h2 => hdates r2 (List.mem_cons_of_mem _ h2))]
      · show DB.mk _ _ _ _ _ = DB.mk _ _ _ _ _
        simp only [freshUpload, mkDailyRows, List.append_assoc, List.singleton_append]
      · intro p hp
        rcases List.mem_append.mp hp with h | h
        · have := hA p h
          show p.id < db.nextId + 1 + r.dailyData.length + 1
          omega
        · have h2 := List.mem_singleton.mp h
          subst h2
          show db.nextId < db.nextId + 1 + r.dailyData.length + 1
          omega
      · intro x hx
        rcases List.mem_append.mp hx with h | h
        · have := hB x h
          show x.participant_id < db.nextId + 1 + r.dailyData.length + 1
          omega
        · have := (mkDailyRows_keys ch db.nextId now r.dailyData (db.nextId + 1) x h).2
          show x.participant_id < db.nextId + 1 + r.dailyData.length + 1
          omega
      · intro e he
        rcases List.mem_append.mp he with h | h
        · have := hC e h
          show e.participant_id < db.nextId + 1 + r.dailyData.length + 1
          omega
        · have h2 := List.mem_singleton.mp h
          subst h2
          show db.nextId < db.nextId + 1 + r.dailyData.length + 1
          omega
      · intro r2 h2
        rw [List.filter_append, hD r2 (List.mem_cons_of_mem _ h2)]
        have hne : ¬ r.name = r2.name := by
          intro he
          exact (List.nodup_cons.mp hnames).1 (he ▸ List.mem_map.mpr ⟨r2, h2, rfl⟩)
        rw [List.filter_cons_of_neg (by simp [mkParticipant, hne])]
        rfl

theorem freshUpload_names (g ch now total : Nat) (rows : List UploadRow) :
    ∀ (base i : Nat),
    (freshUpload g ch now total base i rows).1.map (fun p => p.name) =
      rows.map (fun r => r.name) := by
  induction rows with
  | nil => intro base i; simp [freshUpload]
  | cons r rest ih =>
      intro base i
      simp only [freshUpload, List.map_cons]
      rw [ih]
      rfl

/-- Every id handed out by the closed form sits at or above base. -/
theorem freshUpload_lb (g ch now total : Nat) (rows : List UploadRow) :
    ∀ (base i : Nat),
    (∀ p ∈ (freshUpload g ch now total base i rows).1, base ≤ p.id) ∧
    (∀ x ∈ (freshUpload g ch now total base i rows).2.1,
        base ≤ x.id ∧ base ≤ x.participant_id) ∧
    (∀ e ∈ (freshUpload g ch now total base i rows).2.2.1,
        base ≤ e.id ∧ base ≤ e.participant_id) ∧
    base ≤ (freshUpload g ch now total base i rows).2.2.2 := by
  induction rows with
  | nil => intro base i; simp [freshUpload]
  | cons r rest ih =>
      intro base i
      obtain ⟨ihP, ihD, ihE, ihB⟩ := ih (base + 1 + r.dailyData.length + 1) (i + 1)
      simp only [freshUpload]
      refine ⟨?_, ?_, ?_, ?_⟩
      · intro p hp
        rcases List.mem_cons.mp hp with h | h
        · subst h; exact Nat.le_refl _
        · have := ihP p h; omega
      · intro x hx
        rcases List.mem_append.mp hx with h | h
        · have hid : x.id ∈ List.range' (base + 1) r.dailyData.length := by
            rw [← mkDailyRows_ids ch base now r.dailyData (base + 1)]
            exact List.mem_map.mpr ⟨x, h, rfl⟩
          have hb := (List.mem_range'_1.mp hid).1
          have hpid := (mkDailyRows_keys ch base now r.dailyData (base + 1) x h).2
          omega
        · have := ihD x h; omega
      · intro e he
        rcases List.mem_cons.mp he with h | h
        · subst h
          exact ⟨by show base ≤ base + 1 + r.dailyData.length; omega, Nat.le_refl _⟩
        · have := ihE e h; omega
      · show base ≤ (freshUpload g ch now total (base + 1 + r.dailyData.length + 1) (i + 1) rest).2.2.2
        omega

theorem participants_filter_nil_of_name (g : Nat) (nm : String) (l : List ParticipantRow)
    (h : nm ∉ l.map (fun p => p.name)) :
    l.filter (fun p => p.group_id == g && p.name == nm) = [] := by
  refine List.filter_eq_nil_iff.mpr ?_
  intro p hp hcond
  simp only [Bool.and_eq_true, beq_iff_eq] at hcond
  exact h (hcond.2 ▸ List.mem_map.mpr ⟨p, hp, rfl⟩)

theorem daily_filter_nil_of_lb (ch pid b : Nat) (dt : Date) (l : List DailyRow)
    (hlb : ∀ x ∈ l, b ≤ x.participant_id) (hlt : pid < b) :
    l.filter (fun x =>
      x.challenge_id == ch && x.participant_id == pid && x.step_date == dt) = [] := by
  refine List.filter_eq_nil_iff.mpr ?_
  intro x hx hcond
  simp only [Bool.and_eq_true, beq_iff_eq] at hcond
  have := hlb x hx
  have h2 := hcond.1.2
  omega

theorem entry_filter_nil_of_lb (ch pid b : Nat) (l : List EntryRow)
    (hlb : ∀ e ∈ l, b ≤ e.participant_id) (hlt : pid < b) :
    l.filter (fun e => e.challenge_id == ch && e.participant_id == pid) = [] := by
  refine List.filter_eq_nil_iff.mpr ?_
  intro e he hcond
  simp only [Bool.and_eq_true, beq_iff_eq] at hcond
  have := hlb e he
  have h2 := hcond.2
  omega

theorem mem_of_getElemQ {α : Type} {l : List α} {k : Nat} {a : α}
    (h : l[k]? = some a) : a ∈ l := by
  induction l generalizing k with
  | nil => simp at h
  | cons x t ih =>
      cases k with
      | zero =>
          rw [List.getElem?_cons_zero] at h
          injection h with h2
          subst h2
          exact List.mem_cons_self _ _
      | succ k =>
          rw [List.getElem?_cons_succ] at h
          exact List.mem_cons_of_mem _ (ih h)

/-- Per-row lookup facts in the closed-form fresh upload: each row's
participant, daily and entry filters hit exactly its own fresh rows, the
entry storing the position-derived points and rank. -/
theorem freshUpload_packages (g ch now total : Nat) (rows : List UploadRow) :
    ∀ (base i : Nat),
    (rows.map (fun r => r.name)).Nodup →
    (∀ r ∈ rows, (r.dailyData.map (fun d => d.date)).Nodup) →
    ∀ (k : Nat) (r : UploadRow), rows[k]? = some r →
      ∃ pid, base ≤ pid ∧
        (freshUpload g ch now total base i rows).1.filter
          (fun p => p.group_id == g && p.name == r.name) = [mkParticipant g pid r.name] ∧
        (∀ d ∈ r.dailyData, ∃ rd : DailyRow,
          (freshUpload g ch now total base i rows).2.1.filter (fun x =>
            x.challenge_id == ch && x.participant_id == pid && x.step_date == d.date) = [rd] ∧
          rd.steps = d.steps ∧ rd.distance_mi = d.distance) ∧
        (∃ er : EntryRow,
          (freshUpload g ch now total base i rows).2.2.1.filter (fun e =>
            e.challenge_id == ch && e.participant_id == pid) = [er] ∧
          er.steps = r.totalSteps ∧ er.distance_mi = r.totalDistance ∧
          er.points = (total : Int) - ((i : Int) + (k : Int)) ∧
          er.rank = (i : Int) + (k : Int) + 1) := by
  induction rows with
  | nil => intro base i _ _ k r hk; simp at hk
  | cons r0 rest ih =>
      intro base i hnames hdates k r hk
      rw [List.map_cons] at hnames
      obtain ⟨ihlbP, ihlbD, ihlbE, ihlbB⟩ :=
        freshUpload_lb g ch now total rest (base + 1 + r0.dailyData.length + 1) (i + 1)
      cases k with
      | zero =>
          rw [List.getElem?_cons_zero] at hk
          injection hk with hr
          subst hr
          refine ⟨base, Nat.le_refl _, ?_, ?_, ?_⟩
          · have hnot : r0.name ∉ (freshUpload g ch now total
                (base + 1 + r0.dailyData.length + 1) (i + 1) rest).1.map
                  (fun p => p.name) := by
              rw [freshUpload_names]
              exact (List.nodup_cons.mp hnames).1
            simp only [freshUpload]
            rw [List.filter_cons_of_pos (by simp [mkParticipant]),
              participants_filter_nil_of_name g r0.name _ hnot]
          · intro d hd
            obtain ⟨rd, hrd, hs, hdist⟩ := mkDailyRows_filter_date ch base now d r0.dailyData
              (hdates r0 (List.mem_cons_self _ _)) hd (base + 1)
            refine ⟨rd, ?_, hs, hdist⟩
            simp only [freshUpload]
            rw [List.filter_append, hrd,
              daily_filter_nil_of_lb ch base (base + 1 + r0.dailyData.length + 1) d.date _
                (fun x hx => (ihlbD x hx).2) (by omega), List.append_nil]
          · refine ⟨mkEntry ch base now (base + 1 + r0.dailyData.length) r0
              ((total : Int) - (i : Int)) ((i : Int) + 1), ?_, rfl, rfl, ?_, ?_⟩
            · simp only [freshUpload]
              rw [List.filter_cons_of_pos (by simp [mkEntry]),
                entry_filter_nil_of_lb ch base (base + 1 + r0.dailyData.length + 1) _
                  (fun e he => (ihlbE e he).2) (by omega)]
            · show (total : Int) - (i : Int) = (total : Int) - ((i : Int) + ((0 : Nat) : Int))
              push_cast
              ring
            · show (i : Int) + 1 = (i : Int) + ((0 : Nat) : Int) + 1
              push_cast
              ring
      | succ k =>
          rw [List.getElem?_cons_succ] at hk
          have hmem : r ∈ rest := mem_of_getElemQ hk
          obtain ⟨pid, hpidlb, hP, hD, hE⟩ := ih (base + 1 + r0.dailyData.length + 1) (i + 1)
            (List.nodup_cons.mp hnames).2
            (fun r2 h2 => hdates r2 (List.mem_cons_of_mem _ h2)) k r hk
          have hpidgt : base < pid := by omega
          refine ⟨pid, by omega, ?_, ?_, ?_⟩
          · have hne : ¬ r0.name = r.name := by
              intro he
              exact (List.nodup_cons.mp hnames).1 (he ▸ List.mem_map.mpr ⟨r, hmem, rfl⟩)
            simp only [freshUpload]
            rw [List.filter_cons_of_neg (by simp [mkParticipant, hne]), hP]
          · intro d hd
            obtain ⟨rd, hrd, hs, hdist⟩ := hD d hd
            refine ⟨rd, ?_, hs, hdist⟩
            simp only [freshUpload]
            rw [List.filter_append,
              mkDailyRows_filter_nil ch base now ch pid d.date r0.dailyData (base + 1)
                (by omega),
              hrd, List.nil_append]
          · obtain ⟨er, her, hs, hdist, hpts, hrk⟩ := hE
            refine ⟨er, ?_, hs, hdist, ?_, ?_⟩
            · simp only [freshUpload]
              rw [List.filter_cons_of_neg (by simp [mkEntry, hpidgt.ne]), her]
            · rw [hpts]
              push_cast
              ring
            · rw [hrk]
              push_cast
              ring

theorem map_map_congr {β γ : Type} (p : β → γ) (f : β → β)
    (hf : ∀ x, p (f x) = p x) (l : List β) :
    (l.map f).map p = l.map p := by
  rw [List.map_map]
  exact List.map_congr_left fun x _ => hf x

theorem mkDailyRows_keyList (ch pid now : Nat) (days : List UploadDay) : ∀ b : Nat,
    (mkDailyRows ch pid now b days).map
      (fun x => (x.challenge_id, x.participant_id, x.step_date)) =
    days.map (fun d => (ch, pid, d.date)) := by
  induction days with
  | nil => intro b; simp [mkDailyRows]
  | cons d t ih =>
      intro b
      rw [mkDailyRows, List.map_cons, List.map_cons, ih (b + 1)]

theorem freshUpload_daily_ids_nodup (g ch now total : Nat) (rows : List UploadRow) :
    ∀ (base i : Nat),
    ((freshUpload g ch now total base i rows).2.1.map (fun x => x.id)).Nodup := by
  induction rows with
  | nil => intro base i; simp [freshUpload]
  | cons r rest ih =>
      intro base i
      simp only [freshUpload, List.map_append]
      refine List.Nodup.append ?_ (ih _ _) ?_
      · rw [mkDailyRows_ids]
        exact List.nodup_range' _ _
      · intro a ha hb
        obtain ⟨y, hy, hye⟩ := List.mem_map.mp ha
        obtain ⟨x, hx, hxe⟩ := List.mem_map.mp hb
        have hyb : y.id ∈ List.range' (base + 1) r.dailyData.length := by
          rw [← mkDailyRows_ids ch base now r.dailyData (base + 1)]
          exact List.mem_map.mpr ⟨y, hy, rfl⟩
        have h1 := (List.mem_range'_1.mp hyb).2
        have h2 := ((freshUpload_lb g ch now total rest
          (base + 1 + r.dailyData.length + 1) (i + 1)).2.1 x hx).1
        have h3 : y.id = a := hye
        have h4 : x.id = a := hxe
        omega

theorem freshUpload_entry_ids_nodup (g ch now total : Nat) (rows : List UploadRow) :
    ∀ (base i : Nat),
    ((freshUpload g ch now total base i rows).2.2.1.map (fun e => e.id)).Nodup := by
  induction rows with
  | nil => intro base i; simp [freshUpload]
  | cons r rest ih =>
      intro base i
      simp only [freshUpload, List.map_cons]
      refine List.nodup_cons.mpr ⟨?_, ih _ _⟩
      intro hmem
      obtain ⟨x, hx, hxe⟩ := List.mem_map.mp hmem
      have h2 := ((freshUpload_lb g ch now total rest
        (base + 1 + r.dailyData.length + 1) (i + 1)).2.2.1 x hx).1
      have h3 : x.id = (mkEntry ch base now (base + 1 + r.dailyData.length) r
        ((total : Int) - (i : Int)) ((i : Int) + 1)).id := hxe
      have h4 : (mkEntry ch base now (base + 1 + r.dailyData.length) r
        ((total : Int) - (i : Int)) ((i : Int) + 1)).id = base + 1 + r.dailyData.length := rfl
      omega

theorem freshUpload_daily_keys_nodup (g ch now total : Nat) (rows : List UploadRow) :
    ∀ (base i : Nat),
    (∀ r ∈ rows, (r.dailyData.map (fun d => d.date)).Nodup) →
    ((freshUpload g ch now total base i rows).2.1.map
      (fun x => (x.challenge_id, x.participant_id, x.step_date))).Nodup := by
  induction rows with
  | nil => intro base i _; simp [freshUpload]
  | cons r rest ih =>
      intro base i hdates
      simp only [freshUpload, List.map_append]
      refine List.Nodup.append ?_
        (ih _ _ (fun r2 h2 => hdates r2 (List.mem_cons_of_mem _ h2))) ?_
      · rw [mkDailyRows_keyList]
        have heq : (fun d : UploadDay => (ch, base, d.date)) =
            (fun dt : Date => (ch, base, dt)) ∘ (fun d : UploadDay => d.date) := rfl
        rw [heq, ← List.map_map]
        refine List.Nodup.map ?_ (hdates r (List.mem_cons_self _ _))
        intro a b hab
        simpa using hab
      · intro a ha hb
        obtain ⟨y, hy, hye⟩ := List.mem_map.mp ha
        obtain ⟨x, hx, hxe⟩ := List.mem_map.mp hb
        have hyp2 := (mkDailyRows_keys ch base now r.dailyData (base + 1) y hy).2
        have hxp := ((freshUpload_lb g ch now total rest
          (base + 1 + r.dailyData.length + 1) (i + 1)).2.1 x hx).2
        have h3 : (y.challenge_id, y.participant_id, y.step_date) = a := hye
        have h4 : (x.challenge_id, x.participant_id, x.step_date) = a := hxe
        rw [← h3] at h4
        have h5 : x.participant_id = y.participant_id :=
          congrArg (fun t : Nat × Nat × Date => t.2.1) h4
        omega

theorem freshUpload_entry_keys_nodup (g ch now total : Nat) (rows : List UploadRow) :
    ∀ (base i : Nat),
    ((freshUpload g ch now total base i rows).2.2.1.map
      (fun e => (e.challenge_id, e.participant_id))).Nodup := by
  induction rows with
  | nil => intro base i; simp [freshUpload]
  | cons r rest ih =>
      intro base i
      simp only [freshUpload, List.map_cons]
      refine List.nodup_cons.mpr ⟨?_, ih _ _⟩
      intro hmem
      obtain ⟨x, hx, hxe⟩ := List.mem_map.mp hmem
      have h2 := ((freshUpload_lb g ch now total rest
        (base + 1 + r.dailyData.length + 1) (i + 1)).2.2.1 x hx).2
      have h3 : (x.challenge_id, x.participant_id) =
          ((mkEntry ch base now (base + 1 + r.dailyData.length) r
            ((total : Int) - (i : Int)) ((i : Int) + 1)).challenge_id,
           (mkEntry ch base now (base + 1 + r.dailyData.length) r
            ((total : Int) - (i : Int)) ((i : Int) + 1)).participant_id) := hxe
      have h4 : x.participant_id = base := congrArg (fun t : Nat × Nat => t.2) h3
      omega

/-! ## Upload idempotence: run-two (update-mode) lemmas -/

theorem touchDaily_id (now ch pid : Nat) (ds : List Date) (x : DailyRow) :
    (touchDaily now ch pid ds x).id = x.id := by
  unfold touchDaily; split <;> rfl

theorem touchDaily_sans (now ch pid : Nat) (ds : List Date) (x : DailyRow) :
    dailySansUpd (touchDaily now ch pid ds x) = dailySansUpd x := by
  unfold touchDaily; split <;> rfl

theorem touchEntry_id (now ch pid : Nat) (e : EntryRow) :
    (touchEntry now ch pid e).id = e.id := by
  unfold touchEntry; split <;> rfl

theorem touchEntry_sans (now ch pid : Nat) (e : EntryRow) :
    entrySansUpd (touchEntry now ch pid e) = entrySansUpd e := by
  unfold touchEntry; split <;> rfl

theorem touchDaily_filter_comp (now ch pid ch2 pid2 : Nat) (ds : List Date) (dt : Date) :
    ((fun x : DailyRow =>
        x.challenge_id == ch2 && x.participant_id == pid2 && x.step_date == dt) ∘
      touchDaily now ch pid ds) =
    (fun x : DailyRow =>
      x.challenge_id == ch2 && x.participant_id == pid2 && x.step_date == dt) := by
  funext x
  simp only [Function.comp_apply]
  unfold touchDaily
  split <;> rfl

theorem touchEntry_filter_comp (now ch pid ch2 pid2 : Nat) :
    ((fun e : EntryRow => e.challenge_id == ch2 && e.participant_id == pid2) ∘
      touchEntry now ch pid) =
    (fun e : EntryRow => e.challenge_id == ch2 && e.participant_id == pid2) := by
  funext e
  simp only [Function.comp_apply]
  unfold touchEntry
  split <;> rfl

theorem touchDaily_compose (now ch pid : Nat) (dd : Date) (tds : List Date)
    (hnin : dd ∉ tds) (x : DailyRow) :
    touchDaily now ch pid tds (touchDaily now ch pid [dd] x) =
      touchDaily now ch pid (dd :: tds) x := by
  unfold touchDaily
  by_cases h0 : x.challenge_id = ch ∧ x.participant_id = pid ∧ x.step_date ∈ [dd]
  · rw [if_pos h0]
    have hd : x.step_date = dd := List.mem_singleton.mp h0.2.2
    have hc1 : ¬(({ x with updated_at := now } : DailyRow).challenge_id = ch ∧
        ({ x with updated_at := now } : DailyRow).participant_id = pid ∧
        ({ x with updated_at := now } : DailyRow).step_date ∈ tds) := by
      intro hc
      have hc2 : x.step_date ∈ tds := hc.2.2
      rw [hd] at hc2
      exact hnin hc2
    have hc3 : x.challenge_id = ch ∧ x.participant_id = pid ∧ x.step_date ∈ dd :: tds :=
      ⟨h0.1, h0.2.1, by rw [hd]; exact List.mem_cons_self _ _⟩
    rw [if_neg hc1, if_pos hc3]
  · rw [if_neg h0]
    by_cases h5 : x.challenge_id = ch ∧ x.participant_id = pid ∧ x.step_date ∈ tds
    · have hc3 : x.challenge_id = ch ∧ x.participant_id = pid ∧ x.step_date ∈ dd :: tds :=
        ⟨h5.1, h5.2.1, List.mem_cons_of_mem _ h5.2.2⟩
      rw [if_pos h5, if_pos hc3]
    · have hc6 : ¬(x.challenge_id = ch ∧ x.participant_id = pid ∧
          x.step_date ∈ dd :: tds) := by
        intro hc
        rcases List.mem_cons.mp hc.2.2 with h | h
        · exact h0 ⟨hc.1, hc.2.1, by rw [h]; exact List.mem_singleton_self _⟩
        · exact h5 ⟨hc.1, hc.2.1, h⟩
      rw [if_neg h5, if_neg hc6]

/-- The day-storage loop in update mode: every date is present exactly
once with matching values, so each day rewrites only updated_at. -/
theorem processDays_update (now ch pid : Nat) (days : List UploadDay) : ∀ db : DB,
    (days.map (fun d => d.date)).Nodup →
    (db.daily_steps.map (fun x => x.id)).Nodup →
    (∀ d ∈ days, ∃ rd : DailyRow,
      db.daily_steps.filter (fun x =>
        x.challenge_id == ch && x.participant_id == pid && x.step_date == d.date) = [rd] ∧
      rd.steps = d.steps ∧ rd.distance_mi = d.distance) →
    days.foldl (processDay now ch pid) db =
      { db with daily_steps :=
          db.daily_steps.map (touchDaily now ch pid (days.map (fun d => d.date))) } := by
  induction days with
  | nil =>
      intro db _ _ _
      show db = _
      simp only [List.map_nil]
      have h1 : db.daily_steps.map (touchDaily now ch pid []) =
          db.daily_steps.map (fun x => x) :=
        List.map_congr_left fun x _ => by unfold touchDaily; simp
      have h2 : db.daily_steps.map (touchDaily now ch pid []) = db.daily_steps := by
        rw [h1]; simp
      rw [h2]
  | cons d t ih =>
      intro db hnd hids hpkg
      rw [List.map_cons] at hnd
      obtain ⟨rd, hrd, hs, hdist⟩ := hpkg d (List.mem_cons_self _ _)
      have hrdf : rd ∈ db.daily_steps.filter (fun x =>
          x.challenge_id == ch && x.participant_id == pid && x.step_date == d.date) := by
        rw [hrd]; exact List.mem_cons_self _ _
      have hrdmem : rd ∈ db.daily_steps := List.mem_of_mem_filter hrdf
      have hrdkeys : rd.challenge_id = ch ∧ rd.participant_id = pid ∧ rd.step_date = d.date := by
        have h2 := List.of_mem_filter hrdf
        simp only [Bool.and_eq_true, beq_iff_eq] at h2
        exact ⟨h2.1.1, h2.1.2, h2.2⟩
      have hstep : processDay now ch pid db d =
          { db with daily_steps := db.daily_steps.map (fun x =>
              if x.id = rd.id then
                { x with steps := d.steps, distance_mi := d.distance, updated_at := now }
              else x) } := by
        unfold processDay
        rw [hrd]
      have hmapeq : db.daily_steps.map (fun x =>
          if x.id = rd.id then
            { x with steps := d.steps, distance_mi := d.distance, updated_at := now }
          else x) =
        db.daily_steps.map (touchDaily now ch pid [d.date]) := by
        refine List.map_congr_left ?_
        intro x hx
        unfold touchDaily
        by_cases hid : x.id = rd.id
        · have hxeq : x = rd := List.inj_on_of_nodup_map hids hx hrdmem hid
          subst hxeq
          have hc : x.challenge_id = ch ∧ x.participant_id = pid ∧ x.step_date ∈ [d.date] :=
            ⟨hrdkeys.1, hrdkeys.2.1, by rw [hrdkeys.2.2]; exact List.mem_singleton_self _⟩
          rw [if_pos rfl, if_pos hc, ← hs, ← hdist]
        · have hcond : ¬(x.challenge_id = ch ∧ x.participant_id = pid ∧
              x.step_date ∈ [d.date]) := by
            intro hc
            have hxf : x ∈ db.daily_steps.filter (fun y =>
                y.challenge_id == ch && y.participant_id == pid && y.step_date == d.date) := by
              refine List.mem_filter.mpr ⟨hx, ?_⟩
              have hdt : x.step_date = d.date := List.mem_singleton.mp hc.2.2
              simp [hc.1, hc.2.1, hdt]
            rw [hrd] at hxf
            exact hid (by rw [List.mem_singleton.mp hxf])
          rw [if_neg hid, if_neg hcond]
      rw [List.foldl_cons, hstep, hmapeq, ih]
      · show DB.mk _ _ _ _ _ = DB.mk _ _ _ _ _
        congr 1
        rw [List.map_map, List.map_cons]
        refine List.map_congr_left fun x _ => ?_
        show touchDaily now ch pid (t.map (fun dd => dd.date))
            (touchDaily now ch pid [d.date] x) =
          touchDaily now ch pid (d.date :: t.map (fun dd => dd.date)) x
        exact touchDaily_compose now ch pid d.date (t.map (fun dd => dd.date))
          (List.nodup_cons.mp hnd).1 x
      · exact (List.nodup_cons.mp hnd).2
      · have hpres := map_map_congr (fun x : DailyRow => x.id)
          (touchDaily now ch pid [d.date]) (touchDaily_id now ch pid [d.date]) db.daily_steps
        show ((db.daily_steps.map (touchDaily now ch pid [d.date])).map
          (fun x => x.id)).Nodup
        rw [hpres]
        exact hids
      · intro d2 hd2
        obtain ⟨rd2, hrd2, hs2, hdist2⟩ := hpkg d2 (List.mem_cons_of_mem _ hd2)
        refine ⟨rd2, ?_, hs2, hdist2⟩
        show (db.daily_steps.map (touchDaily now ch pid [d.date])).filter
          (fun x => x.challenge_id == ch && x.participant_id == pid &&
            x.step_date == d2.date) = [rd2]
        rw [List.filter_map, touchDaily_filter_comp, hrd2]
        have hrd2keys := List.of_mem_filter
          (show rd2 ∈ db.daily_steps.filter (fun x =>
            x.challenge_id == ch && x.participant_id == pid && x.step_date == d2.date) by
            rw [hrd2]; exact List.mem_cons_self _ _)
        simp only [Bool.and_eq_true, beq_iff_eq] at hrd2keys
        have hne : ¬ rd2.step_date ∈ [d.date] := by
          intro he
          have hd2e : d2.date ∈ t.map (fun dd => dd.date) :=
            List.mem_map.mpr ⟨d2, hd2, rfl⟩
          rw [← hrd2keys.2, List.mem_singleton.mp he] at hd2e
          exact (List.nodup_cons.mp hnd).1 hd2e
        show [touchDaily now ch pid [d.date] rd2] = [rd2]
        unfold touchDaily
        rw [if_neg (by intro hc; exact hne hc.2.2)]

/-- The per-row loop in update mode: the participant is found, every
daily row is present with identical values and the entry is present with
the same totals, points and rank, so the only visible change is
updated_at. -/
theorem processRow_update (g ch now total i : Nat) (r : UploadRow) (db : DB)
    (pr : ParticipantRow)
    (hpart : db.participants.filter (fun p => p.group_id == g && p.name == r.name) = [pr])
    (hdates : (r.dailyData.map (fun d => d.date)).Nodup)
    (hdids : (db.daily_steps.map (fun x => x.id)).Nodup)
    (heids : (db.entries.map (fun e => e.id)).Nodup)
    (hdays : ∀ d ∈ r.dailyData, ∃ rd : DailyRow,
      db.daily_steps.filter (fun x =>
        x.challenge_id == ch && x.participant_id == pr.id && x.step_date == d.date) = [rd] ∧
      rd.steps = d.steps ∧ rd.distance_mi = d.distance)
    (her : ∃ er : EntryRow,
      db.entries.filter (fun e =>
        e.challenge_id == ch && e.participant_id == pr.id) = [er] ∧
      er.steps = r.totalSteps ∧ er.distance_mi = r.totalDistance ∧
      er.points = (total : Int) - (i : Int) ∧ er.rank = (i : Int) + 1) :
    processRow g ch now total db (i, r) =
      { db with
          daily_steps := db.daily_steps.map
            (touchDaily now ch pr.id (r.dailyData.map (fun d => d.date))),
          entries := db.entries.map (touchEntry now ch pr.id) } := by
  obtain ⟨er, herf, hes, hed, hep, herk⟩ := her
  have hermem : er ∈ db.entries :=
    List.mem_of_mem_filter (show er ∈ db.entries.filter (fun e =>
      e.challenge_id == ch && e.participant_id == pr.id) by
      rw [herf]; exact List.mem_cons_self _ _)
  have herkeys : er.challenge_id = ch ∧ er.participant_id = pr.id := by
    have h2 := List.of_mem_filter (show er ∈ db.entries.filter (fun e =>
      e.challenge_id == ch && e.participant_id == pr.id) by
      rw [herf]; exact List.mem_cons_self _ _)
    simp only [Bool.and_eq_true, beq_iff_eq] at h2
    exact h2
  have hPD := processDays_update now ch pr.id r.dailyData db hdates hdids hdays
  have hsp : single? [pr] = some pr := rfl
  have hser : single? [er] = some er := rfl
  have hmape : db.entries.map (fun x =>
      if x.id = er.id then
        { x with steps := r.totalSteps, distance_mi := r.totalDistance,
                 points := (total : Int) - (i : Int), rank := (i : Int) + 1,
                 updated_at := now }
      else x) =
    db.entries.map (touchEntry now ch pr.id) := by
    refine List.map_congr_left ?_
    intro x hx
    unfold touchEntry
    by_cases hid : x.id = er.id
    · have hxeq : x = er := List.inj_on_of_nodup_map heids hx hermem hid
      subst hxeq
      rw [if_pos rfl, if_pos ⟨herkeys.1, herkeys.2⟩, ← hes, ← hed, ← hep, ← herk]
    · have hcond : ¬(x.challenge_id = ch ∧ x.participant_id = pr.id) := by
        intro hc
        have hxf : x ∈ db.entries.filter (fun y =>
            y.challenge_id == ch && y.participant_id == pr.id) := by
          refine List.mem_filter.mpr ⟨hx, ?_⟩
          simp [hc.1, hc.2]
        rw [herf] at hxf
        exact hid (by rw [List.mem_singleton.mp hxf])
      rw [if_neg hid, if_neg hcond]
  simp only [processRow]
  rw [hpart, hsp]
  dsimp only
  rw [hPD]
  dsimp only
  rw [herf, hser]
  dsimp only
  rw [hmape]

/-- A second pass over the same sorted rows on a store where every row
already resolves to its own participant, daily rows and entry with
identical values: nothing is inserted, no participant or challenge
changes, and every stored row keeps all fields except possibly
updated_at. -/
theorem run2_fold (g ch now total : Nat) (rows : List UploadRow) : ∀ (i : Nat) (db : DB),
    (db.daily_steps.map (fun x => x.id)).Nodup →
    (db.entries.map (fun e => e.id)).Nodup →
    (∀ r ∈ rows, (r.dailyData.map (fun d => d.date)).Nodup) →
    List.Pairwise (fun r1 r2 : UploadRow => ∀ p1 p2 : ParticipantRow,
      db.participants.filter (fun p => p.group_id == g && p.name == r1.name) = [p1] →
      db.participants.filter (fun p => p.group_id == g && p.name == r2.name) = [p2] →
      p1.id ≠ p2.id) rows →
    (∀ (k : Nat) (r : UploadRow), rows[k]? = some r → ∃ pr : ParticipantRow,
      db.participants.filter (fun p => p.group_id == g && p.name == r.name) = [pr] ∧
      (∀ d ∈ r.dailyData, ∃ rd : DailyRow,
        db.daily_steps.filter (fun x =>
          x.challenge_id == ch && x.participant_id == pr.id && x.step_date == d.date) = [rd] ∧
        rd.steps = d.steps ∧ rd.distance_mi = d.distance) ∧
      (∃ er : EntryRow,
        db.entries.filter (fun e =>
          e.challenge_id == ch && e.participant_id == pr.id) = [er] ∧
        er.steps = r.totalSteps ∧ er.distance_mi = r.totalDistance ∧
        er.points = (total : Int) - ((i : Int) + (k : Int)) ∧
        er.rank = (i : Int) + (k : Int) + 1)) →
    ((List.enumFrom i rows).foldl (processRow g ch now total) db).daily_steps.map
        dailySansUpd = db.daily_steps.map dailySansUpd ∧
    ((List.enumFrom i rows).foldl (processRow g ch now total) db).entries.map
        entrySansUpd = db.entries.map entrySansUpd ∧
    ((List.enumFrom i rows).foldl (processRow g ch now total) db).participants =
      db.participants ∧
    ((List.enumFrom i rows).foldl (processRow g ch now total) db).challenges =
      db.challenges ∧
    ((List.enumFrom i rows).foldl (processRow g ch now total) db).nextId = db.nextId := by
  induction rows with
  | nil =>
      intro i db _ _ _ _ _
      exact ⟨rfl, rfl, rfl, rfl, rfl⟩
  | cons r0 rest ih =>
      intro i db hdids heids hdates hpw hpk
      obtain ⟨pr, hpart, hdays, hent⟩ := hpk 0 r0 (by rw [List.getElem?_cons_zero])
      obtain ⟨er, herf, hes, hed, hep, herk⟩ := hent
      have hent2 : ∃ er : EntryRow, db.entries.filter (fun e =>
          e.challenge_id == ch && e.participant_id == pr.id) = [er] ∧
        er.steps = r0.totalSteps ∧ er.distance_mi = r0.totalDistance ∧
        er.points = (total : Int) - (i : Int) ∧ er.rank = (i : Int) + 1 := by
        refine ⟨er, herf, hes, hed, ?_, ?_⟩
        · rw [hep]; push_cast; ring
        · rw [herk]; push_cast; ring
      have hdids1 : ((db.daily_steps.map (touchDaily now ch pr.id
          (r0.dailyData.map (fun d => d.date)))).map (fun x => x.id)).Nodup := by
        rw [map_map_congr (fun x : DailyRow => x.id) _
          (touchDaily_id now ch pr.id (r0.dailyData.map (fun d => d.date)))]
        exact hdids
      have heids1 : ((db.entries.map (touchEntry now ch pr.id)).map
          (fun e => e.id)).Nodup := by
        rw [map_map_congr (fun e : EntryRow => e.id) _ (touchEntry_id now ch pr.id)]
        exact heids
      have hpk1 : ∀ (k : Nat) (r : UploadRow), rest[k]? = some r →
          ∃ pr2 : ParticipantRow,
          db.participants.filter (fun p => p.group_id == g && p.name == r.name) = [pr2] ∧
          (∀ d ∈ r.dailyData, ∃ rd : DailyRow,
            (db.daily_steps.map (touchDaily now ch pr.id
              (r0.dailyData.map (fun d => d.date)))).filter (fun x =>
              x.challenge_id == ch && x.participant_id == pr2.id &&
                x.step_date == d.date) = [rd] ∧
            rd.steps = d.steps ∧ rd.distance_mi = d.distance) ∧
          (∃ er2 : EntryRow,
            (db.entries.map (touchEntry now ch pr.id)).filter (fun e =>
              e.challenge_id == ch && e.participant_id == pr2.id) = [er2] ∧
            er2.steps = r.totalSteps ∧ er2.distance_mi = r.totalDistance ∧
            er2.points = (total : Int) - (((i + 1 : Nat) : Int) + (k : Int)) ∧
            er2.rank = ((i + 1 : Nat) : Int) + (k : Int) + 1) := by
        intro k r hk
        obtain ⟨pr2, hpart2, hdays2, hent3⟩ := hpk (k + 1) r
          (by rw [List.getElem?_cons_succ]; exact hk)
        have hrel := (List.pairwise_cons.mp hpw).1 r (mem_of_getElemQ hk)
        have hprne : pr2.id ≠ pr.id := (hrel pr pr2 hpart hpart2).symm
        refine ⟨pr2, hpart2, ?_, ?_⟩
        · intro d hd
          obtain ⟨rd, hrd, hsd, hdd⟩ := hdays2 d hd
          refine ⟨rd, ?_, hsd, hdd⟩
          rw [List.filter_map, touchDaily_filter_comp, hrd]
          have hrdk := List.of_mem_filter (show rd ∈ db.daily_steps.filter (fun x =>
            x.challenge_id == ch && x.participant_id == pr2.id &&
              x.step_date == d.date) by
            rw [hrd]; exact List.mem_cons_self _ _)
          simp only [Bool.and_eq_true, beq_iff_eq] at hrdk
          show [touchDaily now ch pr.id (r0.dailyData.map (fun dd => dd.date)) rd] = [rd]
          unfold touchDaily
          rw [if_neg ?_]
          intro hc
          have hcc : pr2.id = pr.id := by rw [← hrdk.1.2]; exact hc.2.1
          exact hprne hcc
        · obtain ⟨er2, her2, h1, h2, h3, h4⟩ := hent3
          refine ⟨er2, ?_, h1, h2, ?_, ?_⟩
          · rw [List.filter_map, touchEntry_filter_comp, her2]
            have her2k := List.of_mem_filter (show er2 ∈ db.entries.filter (fun e =>
              e.challenge_id == ch && e.participant_id == pr2.id) by
              rw [her2]; exact List.mem_cons_self _ _)
            simp only [Bool.and_eq_true, beq_iff_eq] at her2k
            show [touchEntry now ch pr.id er2] = [er2]
            unfold touchEntry
            rw [if_neg ?_]
            intro hc
            have hcc : pr2.id = pr.id := by rw [← her2k.2]; exact hc.2
            exact hprne hcc
          · rw [h3]; push_cast; ring
          · rw [h4]; push_cast; ring
      simp only [List.enumFrom]
      rw [List.foldl_cons]
      rw [processRow_update g ch now total i r0 db pr hpart
        (hdates r0 (List.mem_cons_self _ _)) hdids heids hdays hent2]
      obtain ⟨c1, c2, c3, c4, c5⟩ := ih (i + 1)
        { db with
            daily_steps := db.daily_steps.map (touchDaily now ch pr.id
              (r0.dailyData.map (fun d => d.date))),
            entries := db.entries.map (touchEntry now ch pr.id) }
        hdids1 heids1 (fun r2 h2 => hdates r2 (List.mem_cons_of_mem _ h2))
        (List.pairwise_cons.mp hpw).2 hpk1
      refine ⟨?_, ?_, ?_, ?_, ?_⟩
      · rw [c1]
        show (db.daily_steps.map (touchDaily now ch pr.id
          (r0.dailyData.map (fun d => d.date)))).map dailySansUpd =
          db.daily_steps.map dailySansUpd
        rw [map_map_congr dailySansUpd _
          (touchDaily_sans now ch pr.id (r0.dailyData.map (fun d => d.date)))]
      · rw [c2]
        show (db.entries.map (touchEntry now ch pr.id)).map entrySansUpd =
          db.entries.map entrySansUpd
        rw [map_map_congr entrySansUpd _ (touchEntry_sans now ch pr.id)]
      · rw [c3]
      · rw [c4]
      · rw [c5]

/-- The first upload into the empty store, in closed form. -/
theorem save_fresh (g now : Nat) (rows : List UploadRow) (csvDates : List Date)
    (hnames : (rows.map (fun r => r.name)).Nodup)
    (hdates : ∀ r ∈ rows, (r.dailyData.map (fun d => d.date)).Nodup) :
    saveParticipantsToDatabase g now rows csvDates emptyDB =
      { nextId := (freshUpload g 0 now
          (sortRowsDesc rows).length 1 0 (sortRowsDesc rows)).2.2.2,
        participants := (freshUpload g 0 now
          (sortRowsDesc rows).length 1 0 (sortRowsDesc rows)).1,
        challenges := [uploadChallenge g csvDates],
        daily_steps := (freshUpload g 0 now
          (sortRowsDesc rows).length 1 0 (sortRowsDesc rows)).2.1,
        entries := (freshUpload g 0 now
          (sortRowsDesc rows).length 1 0 (sortRowsDesc rows)).2.2.1 } := by
  have hrun := run1_fold g 0 now (sortRowsDesc rows).length (sortRowsDesc rows) 0
    ⟨1, [], [uploadChallenge g csvDates], [], []⟩
    (by intro p hp; cases hp)
    (by intro x hx; cases hx)
    (by intro e he; cases he)
    (fun r _ => rfl)
    (((sortRowsDesc_perm rows).map (fun r => r.name)).nodup_iff.mpr hnames)
    (fun r hr => hdates r ((sortRowsDesc_perm rows).subset hr))
  show (List.enumFrom 0 (sortRowsDesc rows)).foldl
      (processRow g 0 now (sortRowsDesc rows).length)
      ⟨1, [], [uploadChallenge g csvDates], [], []⟩ = _
  rw [hrun]
  show DB.mk _ _ _ _ _ = DB.mk _ _ _ _ _
  congr 1

/-- A later upload of the same CSV into a store already holding the
challenge: resolves to challenge id 0 and runs the row loop only. -/
theorem save_again (g now : Nat) (rows : List UploadRow) (csvDates : List Date) (db : DB)
    (hch : db.challenges = [uploadChallenge g csvDates]) :
    saveParticipantsToDatabase g now rows csvDates db =
      (List.enumFrom 0 (sortRowsDesc rows)).foldl
        (processRow g 0 now (sortRowsDesc rows).length) db := by
  have hsc : single? [uploadChallenge g csvDates] = some (uploadChallenge g csvDates) := rfl
  simp only [saveParticipantsToDatabase]
  rw [hch, List.filter_cons_of_pos (by simp [uploadChallenge]), List.filter_nil, hsc]
  dsimp only [uploadChallenge]
  rw [List.enum_eq_enumFrom]

/-- C6 (amended): uploading the identical CSV twice (clean input: distinct
participant names, distinct dates within each row) leaves every
daily-steps row and leaderboard entry identical to the first upload's
rows on every column except updated_at, adds no rows, touches no
participant or challenge, and keeps the business keys distinct — but the
rows are not byte-identical, because updated_at is rewritten. -/
theorem c6_reupload_amended (g t1 t2 : Nat) (rows : List UploadRow) (csvDates : List Date)
    (hnames : (rows.map (fun r => r.name)).Nodup)
    (hdates : ∀ r ∈ rows, (r.dailyData.map (fun d => d.date)).Nodup) :
    (saveParticipantsToDatabase g t2 rows csvDates
        (saveParticipantsToDatabase g t1 rows csvDates emptyDB)).daily_steps.map
          dailySansUpd =
      (saveParticipantsToDatabase g t1 rows csvDates emptyDB).daily_steps.map
        dailySansUpd ∧
    (saveParticipantsToDatabase g t2 rows csvDates
        (saveParticipantsToDatabase g t1 rows csvDates emptyDB)).entries.map
          entrySansUpd =
      (saveParticipantsToDatabase g t1 rows csvDates emptyDB).entries.map entrySansUpd ∧
    (saveParticipantsToDatabase g t2 rows csvDates
        (saveParticipantsToDatabase g t1 rows csvDates emptyDB)).daily_steps.length =
      (saveParticipantsToDatabase g t1 rows csvDates emptyDB).daily_steps.length ∧
    (saveParticipantsToDatabase g t2 rows csvDates
        (saveParticipantsToDatabase g t1 rows csvDates emptyDB)).entries.length =
      (saveParticipantsToDatabase g t1 rows csvDates emptyDB).entries.length ∧
    (saveParticipantsToDatabase g t2 rows csvDates
        (saveParticipantsToDatabase g t1 rows csvDates emptyDB)).participants =
      (saveParticipantsToDatabase g t1 rows csvDates emptyDB).participants ∧
    (saveParticipantsToDatabase g t2 rows csvDates
        (saveParticipantsToDatabase g t1 rows csvDates emptyDB)).challenges =
      (saveParticipantsToDatabase g t1 rows csvDates emptyDB).challenges ∧
    ((saveParticipantsToDatabase g t2 rows csvDates
        (saveParticipantsToDatabase g t1 rows csvDates emptyDB)).daily_steps.map
          (fun x => (x.challenge_id, x.participant_id, x.step_date))).Nodup ∧
    ((saveParticipantsToDatabase g t2 rows csvDates
        (saveParticipantsToDatabase g t1 rows csvDates emptyDB)).entries.map
          (fun e => (e.challenge_id, e.participant_id))).Nodup := by
  have hsortnames : ((sortRowsDesc rows).map (fun r => r.name)).Nodup :=
    ((sortRowsDesc_perm rows).map (fun r => r.name)).nodup_iff.mpr hnames
  have hsortdates : ∀ r ∈ sortRowsDesc rows, (r.dailyData.map (fun d => d.date)).Nodup :=
    fun r hr => hdates r ((sortRowsDesc_perm rows).subset hr)
  have hs1 := save_fresh g t1 rows csvDates hnames hdates
  rw [hs1]
  rw [save_again g t2 rows csvDates _ rfl]
  have hpkg := freshUpload_packages g 0 t1 (sortRowsDesc rows).length (sortRowsDesc rows)
    1 0 hsortnames hsortdates
  have hpw : List.Pairwise (fun r1 r2 : UploadRow => ∀ p1 p2 : ParticipantRow,
      (freshUpload g 0 t1 (sortRowsDesc rows).length 1 0 (sortRowsDesc rows)).1.filter
        (fun p => p.group_id == g && p.name == r1.name) = [p1] →
      (freshUpload g 0 t1 (sortRowsDesc rows).length 1 0 (sortRowsDesc rows)).1.filter
        (fun p => p.group_id == g && p.name == r2.name) = [p2] →
      p1.id ≠ p2.id) (sortRowsDesc rows) := by
    rw [List.pairwise_iff_getElem]
    intro j k hj hk hjk p1 p2 hp1 hp2
    obtain ⟨pidj, hlbj, hPj, hDj, erj, hEj, hsj, hdj, hptsj, hRj⟩ :=
      hpkg j (sortRowsDesc rows)[j] (List.getElem?_eq_getElem hj)
    obtain ⟨pidk, hlbk, hPk, hDk, erk, hEk, hsk, hdk, hptsk, hRk⟩ :=
      hpkg k (sortRowsDesc rows)[k] (List.getElem?_eq_getElem hk)
    have he1 : p1 = mkParticipant g pidj (sortRowsDesc rows)[j].name :=
      (List.cons_eq_cons.mp (hp1.symm.trans hPj)).1
    have he2 : p2 = mkParticipant g pidk (sortRowsDesc rows)[k].name :=
      (List.cons_eq_cons.mp (hp2.symm.trans hPk)).1
    have hid1 : p1.id = pidj := by rw [he1]; rfl
    have hid2 : p2.id = pidk := by rw [he2]; rfl
    rw [hid1, hid2]
    intro heq
    rw [heq] at hEj
    have herjk : erj = erk := (List.cons_eq_cons.mp (hEj.symm.trans hEk)).1
    rw [herjk] at hRj
    rw [hRj] at hRk
    omega
  have hpk : ∀ (k : Nat) (r : UploadRow), (sortRowsDesc rows)[k]? = some r →
      ∃ pr : ParticipantRow,
      (freshUpload g 0 t1 (sortRowsDesc rows).length 1 0 (sortRowsDesc rows)).1.filter
        (fun p => p.group_id == g && p.name == r.name) = [pr] ∧
      (∀ d ∈ r.dailyData, ∃ rd : DailyRow,
        (freshUpload g 0 t1 (sortRowsDesc rows).length 1 0
          (sortRowsDesc rows)).2.1.filter (fun x =>
          x.challenge_id == 0 && x.participant_id == pr.id &&
            x.step_date == d.date) = [rd] ∧
        rd.steps = d.steps ∧ rd.distance_mi = d.distance) ∧
      (∃ er : EntryRow,
        (freshUpload g 0 t1 (sortRowsDesc rows).length 1 0
          (sortRowsDesc rows)).2.2.1.filter (fun e =>
          e.challenge_id == 0 && e.participant_id == pr.id) = [er] ∧
        er.steps = r.totalSteps ∧ er.distance_mi = r.totalDistance ∧
        er.points = ((sortRowsDesc rows).length : Int) - ((0 : Int) + (k : Int)) ∧
        er.rank = (0 : Int) + (k : Int) + 1) := by
    intro k r hk
    obtain ⟨pid, hlb, hP, hD, er, hE, hs, hd, hpts, hrk⟩ := hpkg k r hk
    refine ⟨mkParticipant g pid r.name, hP, ?_, er, hE, hs, hd, ?_, ?_⟩
    · exact hD
    · rw [hpts]; push_cast; ring
    · rw [hrk]; push_cast; ring
  obtain ⟨c1, c2, c3, c4, c5⟩ := run2_fold g 0 t2 (sortRowsDesc rows).length
    (sortRowsDesc rows) 0
    { nextId := (freshUpload g 0 t1
        (sortRowsDesc rows).length 1 0 (sortRowsDesc rows)).2.2.2,
      participants := (freshUpload g 0 t1
        (sortRowsDesc rows).length 1 0 (sortRowsDesc rows)).1,
      challenges := [uploadChallenge g csvDates],
      daily_steps := (freshUpload g 0 t1
        (sortRowsDesc rows).length 1 0 (sortRowsDesc rows)).2.1,
      entries := (freshUpload g 0 t1
        (sortRowsDesc rows).length 1 0 (sortRowsDesc rows)).2.2.1 }
    (freshUpload_daily_ids_nodup g 0 t1 (sortRowsDesc rows).length (sortRowsDesc rows) 1 0)
    (freshUpload_entry_ids_nodup g 0 t1 (sortRowsDesc rows).length (sortRowsDesc rows) 1 0)
    hsortdates hpw hpk
  have hkd : ∀ l : List DailyRow,
      l.map (fun x => (x.challenge_id, x.participant_id, x.step_date)) =
      (l.map dailySansUpd).map
        (fun t : Nat × Nat × Nat × Date × Int × Rat × Nat =>
          (t.2.1, t.2.2.1, t.2.2.2.1)) := by
    intro l
    rw [List.map_map]
    rfl
  have hke : ∀ l : List EntryRow,
      l.map (fun e => (e.challenge_id, e.participant_id)) =
      (l.map entrySansUpd).map
        (fun t : Nat × Nat × Nat × Int × Rat × Int × Int × Nat =>
          (t.2.1, t.2.2.1)) := by
    intro l
    rw [List.map_map]
    rfl
  refine ⟨c1, c2, ?_, ?_, c3, c4, ?_, ?_⟩
  · have := congrArg List.length c1
    simpa using this
  · have := congrArg List.length c2
    simpa using this
  · rw [hkd, c1, ← hkd]
    exact freshUpload_daily_keys_nodup g 0 t1 (sortRowsDesc rows).length
      (sortRowsDesc rows) 1 0 hsortdates
  · rw [hke, c2, ← hke]
    exact freshUpload_entry_keys_nodup g 0 t1 (sortRowsDesc rows).length
      (sortRowsDesc rows) 1 0

/-- C6 counterexample: re-uploading the identical one-row CSV leaves the
stored daily rows NOT byte-identical — updated_at moves from the first
upload instant 0 to the second instant 1 — and likewise for the entry;
the spec's byte-identical reading is false. -/
theorem c6_reupload_counterexample :
    (saveParticipantsToDatabase 5 1 [⟨"Alice", 500, 2, [⟨⟨2024, 1, 15⟩, 500, 2⟩]⟩] [⟨2024, 1, 15⟩] (saveParticipantsToDatabase 5 0 [⟨"Alice", 500, 2, [⟨⟨2024, 1, 15⟩, 500, 2⟩]⟩] [⟨2024, 1, 15⟩] emptyDB)).daily_steps ≠
      (saveParticipantsToDatabase 5 0 [⟨"Alice", 500, 2, [⟨⟨2024, 1, 15⟩, 500, 2⟩]⟩] [⟨2024, 1, 15⟩] emptyDB).daily_steps ∧
    (saveParticipantsToDatabase 5 1 [⟨"Alice", 500, 2, [⟨⟨2024, 1, 15⟩, 500, 2⟩]⟩] [⟨2024, 1, 15⟩] (saveParticipantsToDatabase 5 0 [⟨"Alice", 500, 2, [⟨⟨2024, 1, 15⟩, 500, 2⟩]⟩] [⟨2024, 1, 15⟩] emptyDB)).daily_steps.map (fun r => r.updated_at) = [1] ∧
    (saveParticipantsToDatabase 5 0 [⟨"Alice", 500, 2, [⟨⟨2024, 1, 15⟩, 500, 2⟩]⟩] [⟨2024, 1, 15⟩] emptyDB).daily_steps.map (fun r => r.updated_at) = [0] ∧
    (saveParticipantsToDatabase 5 1 [⟨"Alice", 500, 2, [⟨⟨2024, 1, 15⟩, 500, 2⟩]⟩] [⟨2024, 1, 15⟩] (saveParticipantsToDatabase 5 0 [⟨"Alice", 500, 2, [⟨⟨2024, 1, 15⟩, 500, 2⟩]⟩] [⟨2024, 1, 15⟩] emptyDB)).entries ≠
      (saveParticipantsToDatabase 5 0 [⟨"Alice", 500, 2, [⟨⟨2024, 1, 15⟩, 500, 2⟩]⟩] [⟨2024, 1, 15⟩] emptyDB).entries ∧
    (saveParticipantsToDatabase 5 1 [⟨"Alice", 500, 2, [⟨⟨2024, 1, 15⟩, 500, 2⟩]⟩] [⟨2024, 1, 15⟩] (saveParticipantsToDatabase 5 0 [⟨"Alice", 500, 2, [⟨⟨2024, 1, 15⟩, 500, 2⟩]⟩] [⟨2024, 1, 15⟩] emptyDB)).entries.map (fun e => e.updated_at) = [1] ∧
    (saveParticipantsToDatabase 5 0 [⟨"Alice", 500, 2, [⟨⟨2024, 1, 15⟩, 500, 2⟩]⟩] [⟨2024, 1, 15⟩] emptyDB).entries.map (fun e => e.updated_at) = [0] := by
  decide

theorem c6_reupload_amended_witness :
    (([⟨"Alice", 500, 2, [⟨⟨2024, 1, 15⟩, 500, 2⟩]⟩] : List UploadRow).map (fun r => r.name)).Nodup ∧
    (∀ r ∈ ([⟨"Alice", 500, 2, [⟨⟨2024, 1, 15⟩, 500, 2⟩]⟩] : List UploadRow),
      (r.dailyData.map (fun d => d.date)).Nodup) ∧
    ((saveParticipantsToDatabase 5 1 [⟨"Alice", 500, 2, [⟨⟨2024, 1, 15⟩, 500, 2⟩]⟩] [⟨2024, 1, 15⟩] (saveParticipantsToDatabase 5 0 [⟨"Alice", 500, 2, [⟨⟨2024, 1, 15⟩, 500, 2⟩]⟩] [⟨2024, 1, 15⟩] emptyDB)).daily_steps.map dailySansUpd =
      (saveParticipantsToDatabase 5 0 [⟨"Alice", 500, 2, [⟨⟨2024, 1, 15⟩, 500, 2⟩]⟩] [⟨2024, 1, 15⟩] emptyDB).daily_steps.map dailySansUpd ∧
    (saveParticipantsToDatabase 5 1 [⟨"Alice", 500, 2, [⟨⟨2024, 1, 15⟩, 500, 2⟩]⟩] [⟨2024, 1, 15⟩] (saveParticipantsToDatabase 5 0 [⟨"Alice", 500, 2, [⟨⟨2024, 1, 15⟩, 500, 2⟩]⟩] [⟨2024, 1, 15⟩] emptyDB)).entries.map entrySansUpd =
      (saveParticipantsToDatabase 5 0 [⟨"Alice", 500, 2, [⟨⟨2024, 1, 15⟩, 500, 2⟩]⟩] [⟨2024, 1, 15⟩] emptyDB).entries.map entrySansUpd ∧
    (saveParticipantsToDatabase 5 1 [⟨"Alice", 500, 2, [⟨⟨2024, 1, 15⟩, 500, 2⟩]⟩] [⟨2024, 1, 15⟩] (saveParticipantsToDatabase 5 0 [⟨"Alice", 500, 2, [⟨⟨2024, 1, 15⟩, 500, 2⟩]⟩] [⟨2024, 1, 15⟩] emptyDB)).daily_steps.length =
      (saveParticipantsToDatabase 5 0 [⟨"Alice", 500, 2, [⟨⟨2024, 1, 15⟩, 500, 2⟩]⟩] [⟨2024, 1, 15⟩] emptyDB).daily_steps.length ∧
    (saveParticipantsToDatabase 5 1 [⟨"Alice", 500, 2, [⟨⟨2024, 1, 15⟩, 500, 2⟩]⟩] [⟨2024, 1, 15⟩] (saveParticipantsToDatabase 5 0 [⟨"Alice", 500, 2, [⟨⟨2024, 1, 15⟩, 500, 2⟩]⟩] [⟨2024, 1, 15⟩] emptyDB)).entries.length =
      (saveParticipantsToDatabase 5 0 [⟨"Alice", 500, 2, [⟨⟨2024, 1, 15⟩, 500, 2⟩]⟩] [⟨2024, 1, 15⟩] emptyDB).entries.length ∧
    (saveParticipantsToDatabase 5 1 [⟨"Alice", 500, 2, [⟨⟨2024, 1, 15⟩, 500, 2⟩]⟩] [⟨2024, 1, 15⟩] (saveParticipantsToDatabase 5 0 [⟨"Alice", 500, 2, [⟨⟨2024, 1, 15⟩, 500, 2⟩]⟩] [⟨2024, 1, 15⟩] emptyDB)).participants =
      (saveParticipantsToDatabase 5 0 [⟨"Alice", 500, 2, [⟨⟨2024, 1, 15⟩, 500, 2⟩]⟩] [⟨2024, 1, 15⟩] emptyDB).participants ∧
    (saveParticipantsToDatabase 5 1 [⟨"Alice", 500, 2, [⟨⟨2024, 1, 15⟩, 500, 2⟩]⟩] [⟨2024, 1, 15⟩] (saveParticipantsToDatabase 5 0 [⟨"Alice", 500, 2, [⟨⟨2024, 1, 15⟩, 500, 2⟩]⟩] [⟨2024, 1, 15⟩] emptyDB)).challenges =
      (saveParticipantsToDatabase 5 0 [⟨"Alice", 500, 2, [⟨⟨2024, 1, 15⟩, 500, 2⟩]⟩] [⟨2024, 1, 15⟩] emptyDB).challenges ∧
    ((saveParticipantsToDatabase 5 1 [⟨"Alice", 500, 2, [⟨⟨2024, 1, 15⟩, 500, 2⟩]⟩] [⟨2024, 1, 15⟩] (saveParticipantsToDatabase 5 0 [⟨"Alice", 500, 2, [⟨⟨2024, 1, 15⟩, 500, 2⟩]⟩] [⟨2024, 1, 15⟩] emptyDB)).daily_steps.map
      (fun x => (x.challenge_id, x.participant_id, x.step_date))).Nodup ∧
    ((saveParticipantsToDatabase 5 1 [⟨"Alice", 500, 2, [⟨⟨2024, 1, 15⟩, 500, 2⟩]⟩] [⟨2024, 1, 15⟩] (saveParticipantsToDatabase 5 0 [⟨"Alice", 500, 2, [⟨⟨2024, 1, 15⟩, 500, 2⟩]⟩] [⟨2024, 1, 15⟩] emptyDB)).entries.map
      (fun e => (e.challenge_id, e.participant_id))).Nodup) :=
  ⟨by decide, by decide,
    c6_reupload_amended 5 0 1 [⟨"Alice", 500, 2, [⟨⟨2024, 1, 15⟩, 500, 2⟩]⟩] [⟨2024, 1, 15⟩] (by decide) (by decide)⟩

end StepUp
